import Mathlib

/-!
# ao-go-process: the AO message handler and its WASM boundary

A shallow embedding of `ao-go-process/main_simple_tinygo.go` (the "simple" variant) and
`ao-go-process/main_tinygo.go` (the build-tagged variant).

Modelling decisions.
* A Go `string` / `[]byte` is a list of bytes; a byte is a natural number below 256.
* `uint32` values are natural numbers, every arithmetic result reduced modulo `2^32`.
* `encoding/json` is library code: `jsonUnmarshal` and `jsonMarshal` below model the parts of
  it that the program calls (decoding into `map[string]interface{}`, encoding the two response
  shapes).  A decoded `float64` is kept as the literal it was read from; the program never
  inspects it.
* Process-wide variables (`heapPtr`, `resultBuffer`) are fields of an explicit state record.
-/

namespace AoGoProcess

/-! ## Go strings -/

/-- A Go `string` or `[]byte`: a sequence of bytes. -/
abbrev GoString := List Nat

/-- The bytes (UTF-8) of a string literal of the source. -/
def bytes (s : String) : GoString := s.toUTF8.data.toList.map UInt8.toNat

/-! ## Values of type `interface{}` produced by `encoding/json` -/

/-- The dynamic values `encoding/json` stores in an `interface{}`: `nil`, `bool`, `float64`
(kept as its literal), `string`, `[]interface{}` and `map[string]interface{}`.  A map is an
association list with pairwise distinct keys. -/
inductive JSONValue where
  | null
  | bool (b : Bool)
  | number (lit : GoString)
  | string (s : GoString)
  | array (elems : List JSONValue)
  | object (members : List (GoString × JSONValue))

/-- A `map[string]interface{}`. -/
abbrev JSONObject := List (GoString × JSONValue)

/-- Map index `m[key]`: the value bound to `key`, or `none` (Go: the nil interface). -/
def mapIndex : JSONObject → GoString → Option JSONValue
  | [], _ => none
  | (k, v) :: rest, key => if k = key then some v else mapIndex rest key

/-- Map assignment `m[key] = v`: replaces an existing binding, otherwise adds one. -/
def mapAssign : JSONObject → GoString → JSONValue → JSONObject
  | [], key, v => [(key, v)]
  | (k, w) :: rest, key, v =>
    if k = key then (k, v) :: rest else (k, w) :: mapAssign rest key v

/-! ## `encoding/json`: the scanner -/

/-- Lexical tokens of a JSON text.  A string token carries its raw body (between the quotes);
a number token carries its literal. -/
inductive Token where
  | beginObject
  | endObject
  | beginArray
  | endArray
  | colon
  | comma
  | str (raw : GoString)
  | num (lit : GoString)
  | litTrue
  | litFalse
  | litNull

/-- Scanner states inside a number literal (`stateNeg`, `state0`, `state1`, `stateDot`,
`stateDot0`, `stateE`, `stateESign`, `stateE0` of the library's scanner). -/
inductive NumState where
  | neg
  | zero
  | int
  | dot
  | frac
  | e
  | eSign
  | exp
  deriving DecidableEq

/-- Lexer state. -/
inductive LexState where
  /-- Between tokens. -/
  | start
  /-- Inside a string literal; `acc` is the raw body so far, reversed. -/
  | str (acc : GoString)
  /-- Inside a string literal, right after a backslash. -/
  | strEsc (acc : GoString)
  /-- Inside a `\u` escape, `n` hexadecimal digits still expected. -/
  | strU (n : Nat) (acc : GoString)
  /-- Inside a number literal; `acc` is the literal so far, reversed. -/
  | num (st : NumState) (acc : GoString)
  /-- Inside `true`, `false` or `null`; `rest` are the bytes still expected. -/
  | lit (tok : Token) (rest : GoString)

def isSpace (c : Nat) : Bool := c = 32 || c = 9 || c = 13 || c = 10

def isDigit (c : Nat) : Bool := 48 ≤ c && c ≤ 57

def isHex (c : Nat) : Bool :=
  (48 ≤ c && c ≤ 57) || (97 ≤ c && c ≤ 102) || (65 ≤ c && c ≤ 70)

/-- A byte read between tokens. -/
def lexStart (c : Nat) : Option (LexState × List Token) :=
  if isSpace c then some (.start, [])
  else if c = 123 then some (.start, [.beginObject])
  else if c = 125 then some (.start, [.endObject])
  else if c = 91 then some (.start, [.beginArray])
  else if c = 93 then some (.start, [.endArray])
  else if c = 58 then some (.start, [.colon])
  else if c = 44 then some (.start, [.comma])
  else if c = 34 then some (.str [], [])
  else if c = 45 then some (.num .neg [c], [])
  else if c = 48 then some (.num .zero [c], [])
  else if 49 ≤ c && c ≤ 57 then some (.num .int [c], [])
  else if c = 116 then some (.lit .litTrue (bytes "rue"), [])
  else if c = 102 then some (.lit .litFalse (bytes "alse"), [])
  else if c = 110 then some (.lit .litNull (bytes "ull"), [])
  else none

/-- A byte read inside a number: the next number state, or `none` when the byte does not
continue the literal. -/
def numStep (st : NumState) (c : Nat) : Option NumState :=
  match st with
  | .neg => if c = 48 then some .zero else if 49 ≤ c && c ≤ 57 then some .int else none
  | .zero =>
    if c = 46 then some .dot else if c = 101 || c = 69 then some .e else none
  | .int =>
    if isDigit c then some .int
    else if c = 46 then some .dot else if c = 101 || c = 69 then some .e else none
  | .dot => if isDigit c then some .frac else none
  | .frac => if isDigit c then some .frac else if c = 101 || c = 69 then some .e else none
  | .e => if c = 43 || c = 45 then some .eSign else if isDigit c then some .exp else none
  | .eSign => if isDigit c then some .exp else none
  | .exp => if isDigit c then some .exp else none

/-- The number states in which the literal may end. -/
def numFinal (st : NumState) : Bool :=
  match st with
  | .zero | .int | .frac | .exp => true
  | _ => false

/-- One byte of input: the next lexer state and the tokens completed by this byte, or `none`
on a lexical error. -/
def lexStep (st : LexState) (c : Nat) : Option (LexState × List Token) :=
  match st with
  | .start => lexStart c
  | .str acc =>
    if c = 34 then some (.start, [.str acc.reverse])
    else if c = 92 then some (.strEsc (c :: acc), [])
    else if c < 32 then none
    else some (.str (c :: acc), [])
  | .strEsc acc =>
    if c = 98 || c = 102 || c = 110 || c = 114 || c = 116 || c = 92 || c = 47 || c = 34 then
      some (.str (c :: acc), [])
    else if c = 117 then some (.strU 4 (c :: acc), [])
    else none
  | .strU n acc =>
    if isHex c then
      (if n ≤ 1 then some (.str (c :: acc), []) else some (.strU (n - 1) (c :: acc), []))
    else none
  | .num ns acc =>
    match numStep ns c with
    | some ns' => some (.num ns' (c :: acc), [])
    | none =>
      if numFinal ns then
        match lexStart c with
        | some (st', toks) => some (st', .num acc.reverse :: toks)
        | none => none
      else none
  | .lit tok rest =>
    match rest with
    | [] => none
    | [r] => if c = r then some (.start, [tok]) else none
    | r :: rest' => if c = r then some (.lit tok rest', []) else none

/-- Runs the lexer over the input. -/
def lexRun : LexState → GoString → Option (List Token)
  | .start, [] => some []
  | .num ns acc, [] => if numFinal ns then some [.num acc.reverse] else none
  | _, [] => none
  | st, c :: rest =>
    match lexStep st c with
    | none => none
    | some (st', toks) =>
      match lexRun st' rest with
      | none => none
      | some more => some (toks ++ more)

/-- The token sequence of a JSON text, or `none` on a lexical error. -/
def tokenize (data : GoString) : Option (List Token) := lexRun .start data

/-! ## `encoding/json`: string bodies and numbers -/

/-- A UTF-8 continuation byte. -/
def isCont (c : Nat) : Bool := 128 ≤ c && c ≤ 191

/-- The length of the well-formed UTF-8 sequence at the head of `s` (`utf8.DecodeRune`), or `0`
when the head byte does not start one. -/
def runeSize : GoString → Nat
  | [] => 0
  | c0 :: rest =>
    if c0 < 128 then 1
    else if 194 ≤ c0 && c0 ≤ 223 then
      match rest with
      | c1 :: _ => if isCont c1 then 2 else 0
      | _ => 0
    else if 224 ≤ c0 && c0 ≤ 239 then
      match rest with
      | c1 :: c2 :: _ =>
        if (if c0 = 224 then 160 else 128) ≤ c1 && c1 ≤ (if c0 = 237 then 159 else 191)
            && isCont c2 then 3 else 0
      | _ => 0
    else if 240 ≤ c0 && c0 ≤ 244 then
      match rest with
      | c1 :: c2 :: c3 :: _ =>
        if (if c0 = 240 then 144 else 128) ≤ c1 && c1 ≤ (if c0 = 244 then 143 else 191)
            && isCont c2 && isCont c3 then 4 else 0
      | _ => 0
    else 0

/-- The UTF-8 encoding of a rune (`utf8.EncodeRune`, for runes that are not surrogates). -/
def encodeRune (r : Nat) : GoString :=
  if r < 128 then [r]
  else if r < 2048 then [192 + r / 64, 128 + r % 64]
  else if r < 65536 then [224 + r / 4096, 128 + r / 64 % 64, 128 + r % 64]
  else [240 + r / 262144, 128 + r / 4096 % 64, 128 + r / 64 % 64, 128 + r % 64]

/-- The replacement rune U+FFFD. -/
def replacementChar : Nat := 65533

/-- Coerces a byte sequence to well-formed UTF-8: every byte that is not part of a
well-formed sequence becomes U+FFFD.  `k` counts the bytes of the current well-formed
sequence that are still to be copied. -/
def coerceUTF8 : Nat → GoString → GoString
  | _, [] => []
  | k + 1, c :: rest => c :: coerceUTF8 k rest
  | 0, c :: rest =>
    match runeSize (c :: rest) with
    | 0 => encodeRune replacementChar ++ coerceUTF8 0 rest
    | n + 1 => c :: coerceUTF8 n rest

/-- The value of a hexadecimal digit. -/
def hexVal (c : Nat) : Nat :=
  if 48 ≤ c && c ≤ 57 then c - 48
  else if 97 ≤ c && c ≤ 102 then c - 97 + 10
  else c - 65 + 10

/-- The value of four hexadecimal digits (`getu4`). -/
def getu4 (a b c d : Nat) : Nat :=
  hexVal a * 4096 + hexVal b * 256 + hexVal c * 16 + hexVal d

/-- The byte a two-character escape `\c` stands for. -/
def escapeByte (c : Nat) : Nat :=
  if c = 98 then 8 else if c = 102 then 12 else if c = 110 then 10
  else if c = 114 then 13 else if c = 116 then 9 else c

/-- The bytes a `\u` escape stands for, and how many further bytes of the body it takes up:
`s` is the body after the leading backslash.  A surrogate half is combined with a following
`\u` escape when the two form a valid pair and is U+FFFD otherwise. -/
def unicodeEscape : GoString → GoString × Nat
  | 117 :: a :: b :: c :: d :: 92 :: 117 :: e :: f :: g :: h :: _ =>
    let rr := getu4 a b c d
    let rr1 := getu4 e f g h
    if 55296 ≤ rr && rr < 57344 then
      if rr < 56320 && 56320 ≤ rr1 && rr1 < 57344 then
        (encodeRune ((rr - 55296) * 1024 + (rr1 - 56320) + 65536), 11)
      else (encodeRune replacementChar, 5)
    else (encodeRune rr, 5)
  | 117 :: a :: b :: c :: d :: _ =>
    let rr := getu4 a b c d
    if 55296 ≤ rr && rr < 57344 then (encodeRune replacementChar, 5) else (encodeRune rr, 5)
  | c :: _ => ([escapeByte c], 1)
  | [] => ([], 0)

/-- Replaces the escape sequences of a scanned string body by the bytes they stand for.  `k`
counts the bytes of an escape sequence already replaced that are still to be passed over. -/
def unescape : Nat → GoString → GoString
  | _, [] => []
  | k + 1, _ :: rest => unescape k rest
  | 0, c :: rest =>
    if c = 92 then (unicodeEscape rest).1 ++ unescape (unicodeEscape rest).2 rest
    else c :: unescape 0 rest

/-- The Go string denoted by a scanned string body (`unquote`). -/
def unquote (raw : GoString) : GoString := unescape 0 (coerceUTF8 0 raw)

/-- The natural number written by a sequence of decimal digits. -/
def digitsVal (ds : GoString) : Nat := ds.foldl (fun n c => 10 * n + (c - 48)) 0

/-- The least magnitude that rounds to an infinite `float64`, `(2^54 - 1) * 2^970`: the
midpoint of the largest finite `float64` and `2^1024`. -/
def float64Overflow : Nat :=
  179769313486231580793728971405303415079934132710037826936173778980444968292764750946649017977587207096330286416692887910946555547851940402630657488671505820681908902000708383676273854845817711531764475730270069855571366959622842914819860834936475292719074168444365510704342711559699508093042880177904174497792

/-- Whether `strconv.ParseFloat(lit, 64)` reports a range error for a JSON number literal: the
magnitude written, `m * 10^x`, is at least `float64Overflow`. -/
def floatOverflows (lit : GoString) : Bool :=
  let s := match lit with
    | 45 :: r => r
    | r => r
  let ip := s.takeWhile isDigit
  let s1 := s.dropWhile isDigit
  let fp := match s1 with
    | 46 :: r => r.takeWhile isDigit
    | _ => []
  let s2 := match s1 with
    | 46 :: r => r.dropWhile isDigit
    | r => r
  let m := digitsVal (ip ++ fp)
  match s2 with
  | _ :: 45 :: ed => decide (float64Overflow * 10 ^ (digitsVal ed + fp.length) ≤ m)
  | _ :: ed' =>
    let ed := match ed' with
      | 43 :: r => r
      | r => r
    if fp.length ≤ digitsVal ed then
      decide (float64Overflow ≤ m * 10 ^ (digitsVal ed - fp.length))
    else decide (float64Overflow * 10 ^ (fp.length - digitsVal ed) ≤ m)
  | [] => decide (float64Overflow * 10 ^ fp.length ≤ m)

/-! ## `encoding/json`: the parser -/

/-- A container under construction. -/
inductive Frame where
  /-- An array; `rev` are its elements so far, reversed. -/
  | arr (rev : List JSONValue)
  /-- An object waiting for a key or for its end. -/
  | obj (members : JSONObject)
  /-- An object waiting for the value of `key`. -/
  | objVal (members : JSONObject) (key : GoString)

/-- What the parser may read next. -/
inductive Expect where
  | value
  | valueOrEnd
  | keyOrEnd
  | key
  | colon
  | next
  deriving DecidableEq

/-- Parser state: the open containers (innermost first), what is expected next and, once the
top-level value is complete, that value. -/
structure ParseState where
  stack : List Frame
  expect : Expect
  result : Option JSONValue

/-- Nesting limit of the library's scanner. -/
def maxNestingDepth : Nat := 10000

/-- The value of a scalar token. -/
def scalarOf : Token → Option JSONValue
  | .str raw => some (.string (unquote raw))
  | .num lit => some (.number lit)
  | .litTrue => some (.bool true)
  | .litFalse => some (.bool false)
  | .litNull => some .null
  | _ => none

/-- A value has been completed: it is stored in the innermost open container, or becomes the
result. -/
def complete (v : JSONValue) : List Frame → Option ParseState
  | [] => some ⟨[], .next, some v⟩
  | .arr rev :: rest => some ⟨.arr (v :: rev) :: rest, .next, none⟩
  | .objVal m k :: rest => some ⟨.obj (mapAssign m k v) :: rest, .next, none⟩
  | .obj _ :: _ => none

/-- Opens a container. -/
def push (f : Frame) (e : Expect) (stack : List Frame) : Option ParseState :=
  if stack.length + 1 ≤ maxNestingDepth then some ⟨f :: stack, e, none⟩ else none

/-- One token of input. -/
def parseStep (ps : ParseState) (t : Token) : Option ParseState :=
  match ps.expect, t, ps.stack with
  | .value, .beginObject, st => push (.obj []) .keyOrEnd st
  | .valueOrEnd, .beginObject, st => push (.obj []) .keyOrEnd st
  | .value, .beginArray, st => push (.arr []) .valueOrEnd st
  | .valueOrEnd, .beginArray, st => push (.arr []) .valueOrEnd st
  | .valueOrEnd, .endArray, .arr rev :: rest => complete (.array rev.reverse) rest
  | .value, t, st => (scalarOf t).bind (fun v => complete v st)
  | .valueOrEnd, t, st => (scalarOf t).bind (fun v => complete v st)
  | .keyOrEnd, .str raw, .obj m :: rest => some ⟨.objVal m (unquote raw) :: rest, .colon, none⟩
  | .keyOrEnd, .endObject, .obj m :: rest => complete (.object m) rest
  | .key, .str raw, .obj m :: rest => some ⟨.objVal m (unquote raw) :: rest, .colon, none⟩
  | .colon, .colon, st => some ⟨st, .value, none⟩
  | .next, .comma, .arr rev :: rest => some ⟨.arr rev :: rest, .value, none⟩
  | .next, .endArray, .arr rev :: rest => complete (.array rev.reverse) rest
  | .next, .comma, .obj m :: rest => some ⟨.obj m :: rest, .key, none⟩
  | .next, .endObject, .obj m :: rest => complete (.object m) rest
  | _, _, _ => none

/-- Runs the parser over the tokens; the input must be exactly one value. -/
def parseRun : ParseState → List Token → Option JSONValue
  | ps, [] =>
    match ps.stack, ps.expect with
    | [], .next => ps.result
    | _, _ => none
  | ps, t :: ts =>
    match parseStep ps t with
    | none => none
    | some ps' => parseRun ps' ts

/-- The value a JSON text denotes, or `none` when the text is not valid JSON. -/
def parseJSON (data : GoString) : Option JSONValue :=
  (tokenize data).bind (parseRun ⟨[], .value, none⟩)

/-- Whether the text is valid JSON (`checkValid`). -/
def checkValid (data : GoString) : Bool := (parseJSON data).isSome

/-- Whether a token is a number literal outside the range of `float64`. -/
def tokenOverflows : Token → Bool
  | .num lit => floatOverflows lit
  | _ => false

/-- The errors `json.Unmarshal` returns: `*SyntaxError` and `*UnmarshalTypeError`. -/
inductive UnmarshalError where
  | invalidJSON
  | typeError
  deriving DecidableEq

/-- The call `json.Unmarshal(data, &msg)` for a fresh `var msg map[string]interface{}`: the
error, or the map stored in `msg` (`none` is the nil map, left in place by the JSON text
`null`).  A text that is not valid JSON is a syntax error; a valid text that is neither an
object nor `null`, or that holds a number outside the range of `float64`, is a type error. -/
def jsonUnmarshal (data : GoString) : Except UnmarshalError (Option JSONObject) :=
  match tokenize data with
  | none => .error .invalidJSON
  | some toks =>
    match parseRun ⟨[], .value, none⟩ toks with
    | none => .error .invalidJSON
    | some .null => .ok none
    | some (.object m) => if toks.any tokenOverflows then .error .typeError else .ok (some m)
    | some _ => .error .typeError

/-! ## `encoding/json`: the encoder -/

/-- Lower-case hexadecimal digit. -/
def hexDigit (n : Nat) : Nat := if n < 10 then 48 + n else 87 + n

/-- The encoding of one ASCII byte inside a JSON string, with HTML escaping (the default of
`json.Marshal`). -/
def escapeASCII (c : Nat) : GoString :=
  if c = 92 || c = 34 then [92, c]
  else if c = 8 then [92, 98]
  else if c = 12 then [92, 102]
  else if c = 10 then [92, 110]
  else if c = 13 then [92, 114]
  else if c = 9 then [92, 116]
  else if c < 32 || c = 60 || c = 62 || c = 38 then
    [92, 117, 48, 48, hexDigit (c / 16), hexDigit (c % 16)]
  else [c]

/-- The body of an encoded JSON string.  `k` counts the bytes of the current multi-byte rune
still to be passed over; they are copied when `keep` is set and dropped otherwise.  A byte
that is not part of well-formed UTF-8 is written as the escape of U+FFFD, and the runes U+2028
and U+2029 are written as their escapes. -/
def escapeBody : Nat → Bool → GoString → GoString
  | _, _, [] => []
  | k + 1, keep, c :: rest => (if keep then [c] else []) ++ escapeBody k keep rest
  | 0, _, c :: rest =>
    if c < 128 then escapeASCII c ++ escapeBody 0 true rest
    else
      match runeSize (c :: rest), rest with
      | 0, _ => bytes "\\ufffd" ++ escapeBody 0 true rest
      | 3, 128 :: 168 :: _ =>
        if c = 226 then bytes "\\u2028" ++ escapeBody 2 false rest
        else c :: escapeBody 2 true rest
      | 3, 128 :: 169 :: _ =>
        if c = 226 then bytes "\\u2029" ++ escapeBody 2 false rest
        else c :: escapeBody 2 true rest
      | n + 1, _ => c :: escapeBody n true rest

/-- The encoding of a Go `string`. -/
def marshalString (s : GoString) : GoString := 34 :: escapeBody 0 true s ++ [34]

/-- The encoding of a Go `int`. -/
def marshalInt (n : Int) : GoString :=
  match n with
  | .ofNat m => (Nat.toDigits 10 m).map Char.toNat
  | .negSucc m => 45 :: (Nat.toDigits 10 (m + 1)).map Char.toNat

/-- The encoding of a Go `bool`. -/
def marshalBool (b : Bool) : GoString := if b then bytes "true" else bytes "false"

/-- Byte-wise lexicographic order on strings (`strings.Compare(a, b) < 0`). -/
def bytesLt : GoString → GoString → Bool
  | [], [] => false
  | [], _ :: _ => true
  | _ :: _, [] => false
  | a :: as, b :: bs => a < b || (a = b && bytesLt as bs)

/-- Inserts an encoded member into a list sorted by key. -/
def insertMember (kv : GoString × GoString) : List (GoString × GoString) →
    List (GoString × GoString)
  | [] => [kv]
  | x :: rest => if bytesLt kv.1 x.1 then kv :: x :: rest else x :: insertMember kv rest

/-- Sorts encoded members by key: the encoder writes the keys of a map in sorted order. -/
def sortMembers (ms : List (GoString × GoString)) : List (GoString × GoString) :=
  ms.foldr insertMember []

/-- Joins encoded items with commas. -/
def joinComma : List GoString → GoString
  | [] => []
  | [x] => x
  | x :: y :: rest => x ++ 44 :: joinComma (y :: rest)

/-- The encoding of a map from its encoded members. -/
def marshalMembers (ms : List (GoString × GoString)) : GoString :=
  123 :: joinComma ((sortMembers ms).map (fun kv => marshalString kv.1 ++ 58 :: kv.2)) ++ [125]

mutual
/-- The encoding of a value held in an `interface{}`.  A `float64` is written as the
literal it was read from (the program encodes no number it has decoded). -/
def marshalValue : JSONValue → GoString
  | .null => bytes "null"
  | .bool b => marshalBool b
  | .number lit => lit
  | .string s => marshalString s
  | .array elems => 91 :: joinComma (marshalValues elems) ++ [93]
  | .object members => marshalMembers (marshalBindings members)
/-- The encodings of the elements of a slice. -/
def marshalValues : List JSONValue → List GoString
  | [] => []
  | v :: rest => marshalValue v :: marshalValues rest
/-- The keys of a map with the encodings of their values. -/
def marshalBindings : List (GoString × JSONValue) → List (GoString × GoString)
  | [] => []
  | (k, v) :: rest => (k, marshalValue v) :: marshalBindings rest
end

/-- The encoding of a `[]interface{}`; `none` is the nil slice, written `null`. -/
def marshalSlice : Option (List JSONValue) → GoString
  | none => bytes "null"
  | some elems => marshalValue (.array elems)

/-! ## The response types of the source -/

/-- `ProcessResponse` represents the inner response structure. -/
structure ProcessResponse where
  Output : GoString
  Error : GoString
  Messages : Option (List JSONValue)
  Spawns : Option (List JSONValue)
  Assignments : Option (List JSONValue)
  GasUsed : Int

/-- The values the program stores in the field `Response interface{}` of `AOResponse`: a
`ProcessResponse` or a `map[string]interface{}`. -/
inductive ResponseValue where
  | processResponse (r : ProcessResponse)
  | object (m : JSONObject)

/-- `AOResponse` represents the expected AO response format. -/
structure AOResponse where
  Ok : Bool
  Response : ResponseValue

/-- The encoding of a `ProcessResponse`: its fields in declaration order under their
`json:"..."` names. -/
def marshalProcessResponse (r : ProcessResponse) : GoString :=
  bytes "\x7b\"Output\":" ++ marshalString r.Output
    ++ bytes ",\"Error\":" ++ marshalString r.Error
    ++ bytes ",\"Messages\":" ++ marshalSlice r.Messages
    ++ bytes ",\"Spawns\":" ++ marshalSlice r.Spawns
    ++ bytes ",\"Assignments\":" ++ marshalSlice r.Assignments
    ++ bytes ",\"GasUsed\":" ++ marshalInt r.GasUsed ++ bytes "\x7d"

/-- The encoding of the value of the field `Response`. -/
def marshalResponseValue : ResponseValue → GoString
  | .processResponse r => marshalProcessResponse r
  | .object m => marshalValue (.object m)

/-- The errors `json.Marshal` can return. -/
inductive MarshalError where
  | unsupported
  deriving DecidableEq

/-- The call `json.Marshal(w)` for an `AOResponse`: fields `ok` and `response` in declaration
order.  For values of these types the encoder reports no error. -/
def jsonMarshal (w : AOResponse) : Except MarshalError GoString :=
  .ok (bytes "\x7b\"ok\":" ++ marshalBool w.Ok
    ++ bytes ",\"response\":" ++ marshalResponseValue w.Response ++ bytes "\x7d")

/-! ## `handleAO` -/

/-- The source's `createErrorResponse`; the error of `json.Marshal` is discarded, and a nil
`jsonBytes` converts to the empty string. -/
def createErrorResponse (errMsg : GoString) : GoString :=
  let response : AOResponse :=
    { Ok := false, Response := .object [(bytes "Error", .string errMsg)] }
  match jsonMarshal response with
  | .ok jsonBytes => jsonBytes
  | .error _ => []

/-- The loop `for _, tag := range tags` of `handleAO`: `action` is the variable assigned on
the first tag that is a map whose `"name"` is the string `"Action"` and whose `"value"` is a
string, after which the loop is left. -/
def scanTags (action : GoString) : List JSONValue → GoString
  | [] => action
  | .object tagMap :: rest =>
    match mapIndex tagMap (bytes "name") with
    | some (.string name) =>
      if name = bytes "Action" then
        match mapIndex tagMap (bytes "value") with
        | some (.string value) => value
        | _ => scanTags action rest
      else scanTags action rest
    | _ => scanTags action rest
  | _ :: rest => scanTags action rest

/-- The block "Extract action from tags" of `handleAO`; `msg` is the decoded message, `none`
the nil map. -/
def extractAction (msg : Option JSONObject) : GoString :=
  match msg.bind (fun m => mapIndex m (bytes "Tags")) with
  | some (.array tags) => scanTags (bytes "Default") tags
  | _ => bytes "Default"

/-- The `switch action` of `handleAO`. -/
def outputOf (action : GoString) : GoString :=
  if action = bytes "Hello" then bytes "Hello, world!" else bytes "Unknown action"

/-- The source's `handleAO`: processes an AO message and returns the response. -/
def handleAO (msgJson _envJson : GoString) : GoString :=
  match jsonUnmarshal msgJson with
  | .error _ => createErrorResponse (bytes "Invalid message JSON")
  | .ok msg =>
    let action := extractAction msg
    let output := outputOf action
    let response : ProcessResponse :=
      { Output := output, Error := [], Messages := some [], Spawns := some [],
        Assignments := some [], GasUsed := 0 }
    let wrapper : AOResponse := { Ok := true, Response := .processResponse response }
    match jsonMarshal wrapper with
    | .error _ => createErrorResponse (bytes "Failed to marshal response")
    | .ok jsonBytes => jsonBytes

/-! ## The WASM boundary: state shared by both variants -/

/-- Reduction of an arithmetic result to `uint32`. -/
def u32 (n : Nat) : Nat := n % 4294967296

/-- The operator `&^` (bit clear) on `uint32`. -/
def andNot (x m : Nat) : Nat := x &&& (4294967295 ^^^ m)

/-- The process-wide variables `resultBuffer` and `heapPtr`. -/
structure State where
  resultBuffer : GoString
  heapPtr : Nat

/-- The state after module initialisation: `resultBuffer` is nil, `heapPtr` is 65536. -/
def State.init : State := { resultBuffer := [], heapPtr := 65536 }

/-- Run-time panics. -/
inductive Panic where
  | sliceBoundsOutOfRange
  | indexOutOfRange
  | abortCalled
  deriving DecidableEq

/-- The source's `readStringFromMemory`; `mem` is the linear memory.  Slicing the
`[1 << 20]byte` array panics when `length` exceeds its size. -/
def readStringFromMemory (mem : Nat → Nat) (ptr length : Nat) : Except Panic GoString :=
  if ptr = 0 ∨ length = 0 then .ok []
  else if 1048576 < length then .error .sliceBoundsOutOfRange
  else .ok ((List.range length).map (fun i => mem (ptr + i)))

/-- The source's `handle`.  `bufAddr` is the address at which the runtime places the new
backing array of `resultBuffer`; indexing an empty `resultBuffer` panics. -/
def handle (mem : Nat → Nat) (bufAddr : Nat) (s : State)
    (msgJsonPtr msgJsonLen envJsonPtr envJsonLen : Nat) : Except Panic (Nat × State) :=
  match readStringFromMemory mem msgJsonPtr msgJsonLen with
  | .error p => .error p
  | .ok msgJson =>
    match readStringFromMemory mem envJsonPtr envJsonLen with
    | .error p => .error p
    | .ok envJson =>
      let result := handleAO msgJson envJson
      let s' : State := { s with resultBuffer := result }
      if s'.resultBuffer = [] then .error .indexOutOfRange else .ok (u32 bufAddr, s')

/-- The source's `getResultLength`. -/
def getResultLength (s : State) : Nat := u32 s.resultBuffer.length

/-- The source's `stackRestore`: no effect. -/
def stackRestore (s : State) (_ptr : Nat) : State := s

/-- The source's `abort`. -/
def abort : Except Panic Unit := .error .abortCalled

/-! ## The simple variant (`main_simple_tinygo.go`) -/

namespace Simple

/-- The source's `stackSave`. -/
def stackSave : Nat := 65536

/-- The source's `stackAlloc`: "return a dummy pointer". -/
def stackAlloc (size : Nat) : Nat := u32 (65536 + size)

/-- The source's `_emscripten_stack_get_end`. -/
def _emscripten_stack_get_end : Nat := 131072

/-- The source's `emscripten_stack_get_end`. -/
def emscripten_stack_get_end : Nat := _emscripten_stack_get_end

/-- The source's `malloc`: the returned offset and the state after the call. -/
def malloc (s : State) (size : Nat) : Nat × State :=
  if size = 0 then (0, s)
  else
    let aligned := andNot (u32 (size + 7)) 7
    let ptr := s.heapPtr
    (ptr, { s with heapPtr := u32 (s.heapPtr + aligned) })

/-- The source's `free`: no effect. -/
def free (s : State) (_ptr : Nat) : State := s

/-- A call of an exported function with its arguments. -/
inductive Call where
  | handle (mem : Nat → Nat) (bufAddr msgJsonPtr msgJsonLen envJsonPtr envJsonLen : Nat)
  | getResultLength
  | _emscripten_stack_init
  | emscripten_stack_init
  | stackSave
  | stackRestore (ptr : Nat)
  | stackAlloc (size : Nat)
  | _emscripten_stack_get_end
  | emscripten_stack_get_end
  | malloc (size : Nat)
  | free (ptr : Nat)
  | abort
  | main

/-- One exported call: the value returned (if the function returns one) and the state after
the call, or the panic that ends the module instance. -/
def step (s : State) : Call → Except Panic (Option Nat × State)
  | .handle mem bufAddr msgJsonPtr msgJsonLen envJsonPtr envJsonLen =>
    match AoGoProcess.handle mem bufAddr s msgJsonPtr msgJsonLen envJsonPtr envJsonLen with
    | .error p => .error p
    | .ok (ptr, s') => .ok (some ptr, s')
  | .getResultLength => .ok (some (AoGoProcess.getResultLength s), s)
  | ._emscripten_stack_init => .ok (none, s)
  | .emscripten_stack_init => .ok (none, s)
  | .stackSave => .ok (some Simple.stackSave, s)
  | .stackRestore ptr => .ok (none, AoGoProcess.stackRestore s ptr)
  | .stackAlloc size => .ok (some (Simple.stackAlloc size), s)
  | ._emscripten_stack_get_end => .ok (some Simple._emscripten_stack_get_end, s)
  | .emscripten_stack_get_end => .ok (some Simple.emscripten_stack_get_end, s)
  | .malloc size => .ok (some (Simple.malloc s size).1, (Simple.malloc s size).2)
  | .free ptr => .ok (none, Simple.free s ptr)
  | .abort =>
    match AoGoProcess.abort with
    | .error p => .error p
    | .ok _ => .ok (none, s)
  | .main => .ok (none, s)

/-- A sequence of exported calls: the state after the last one, or the first panic. -/
def run (s : State) : List Call → Except Panic State
  | [] => .ok s
  | c :: cs =>
    match step s c with
    | .error p => .error p
    | .ok (_, s') => run s' cs

/-- The states reachable from the initial state by exported calls. -/
inductive Reachable : State → Prop where
  | init : Reachable State.init
  | step {s s' : State} {c : Call} {r : Option Nat} :
      Reachable s → step s c = .ok (r, s') → Reachable s'

/-- The offsets returned by a sequence of `malloc` calls with the given sizes. -/
def mallocSeq (s : State) : List Nat → List Nat
  | [] => []
  | size :: rest => (malloc s size).1 :: mallocSeq (malloc s size).2 rest

end Simple

/-! ## The build-tagged variant (`main_tinygo.go`) -/

namespace Tinygo

/-- The source's `stackSave`. -/
def stackSave (s : State) : Nat := s.heapPtr

/-- The source's `stackAlloc`: the returned offset and the state after the call. -/
def stackAlloc (s : State) (size : Nat) : Nat × State :=
  let aligned := andNot (u32 (size + 15)) 15
  let ptr := s.heapPtr
  (ptr, { s with heapPtr := u32 (s.heapPtr + aligned) })

/-- A call of an exported function with its arguments. -/
inductive Call where
  | handle (mem : Nat → Nat) (bufAddr msgJsonPtr msgJsonLen envJsonPtr envJsonLen : Nat)
  | getResultLength
  | abort
  | stackSave
  | stackRestore (ptr : Nat)
  | stackAlloc (size : Nat)
  | main

/-- One exported call: the value returned (if the function returns one) and the state after
the call, or the panic that ends the module instance. -/
def step (s : State) : Call → Except Panic (Option Nat × State)
  | .handle mem bufAddr msgJsonPtr msgJsonLen envJsonPtr envJsonLen =>
    match AoGoProcess.handle mem bufAddr s msgJsonPtr msgJsonLen envJsonPtr envJsonLen with
    | .error p => .error p
    | .ok (ptr, s') => .ok (some ptr, s')
  | .getResultLength => .ok (some (AoGoProcess.getResultLength s), s)
  | .abort =>
    match AoGoProcess.abort with
    | .error p => .error p
    | .ok _ => .ok (none, s)
  | .stackSave => .ok (some (Tinygo.stackSave s), s)
  | .stackRestore ptr => .ok (none, AoGoProcess.stackRestore s ptr)
  | .stackAlloc size => .ok (some (Tinygo.stackAlloc s size).1, (Tinygo.stackAlloc s size).2)
  | .main => .ok (none, s)

/-- The states reachable from the initial state by exported calls. -/
inductive Reachable : State → Prop where
  | init : Reachable State.init
  | step {s s' : State} {c : Call} {r : Option Nat} :
      Reachable s → step s c = .ok (r, s') → Reachable s'

end Tinygo

/-! ## Vocabulary of the specification -/

/-- The body of `handleAO` with the block "Extract action from tags" as a parameter: a result
that is the same for every `extract` is computed without reaching that block. -/
def handleAOWith (extract : Option JSONObject → GoString) (msgJson _envJson : GoString) :
    GoString :=
  match jsonUnmarshal msgJson with
  | .error _ => createErrorResponse (bytes "Invalid message JSON")
  | .ok msg =>
    let action := extract msg
    let output := outputOf action
    let response : ProcessResponse :=
      { Output := output, Error := [], Messages := some [], Spawns := some [],
        Assignments := some [], GasUsed := 0 }
    let wrapper : AOResponse := { Ok := true, Response := .processResponse response }
    match jsonMarshal wrapper with
    | .error _ => createErrorResponse (bytes "Failed to marshal response")
    | .ok jsonBytes => jsonBytes

/-- A matching Tag with value `v`: an object whose `name` is the string `"Action"` and whose
`value` is the string `v`. -/
def IsActionTag (t : JSONValue) (v : GoString) : Prop :=
  ∃ tagMap, t = .object tagMap ∧
    mapIndex tagMap (bytes "name") = some (.string (bytes "Action")) ∧
    mapIndex tagMap (bytes "value") = some (.string v)

/-- The first matching Tag of `tags` has value `v`. -/
def FirstActionTag (tags : List JSONValue) (v : GoString) : Prop :=
  ∃ pre t suf, tags = pre ++ t :: suf ∧ (∀ p ∈ pre, ∀ w, ¬ IsActionTag p w) ∧ IsActionTag t v

/-- The text of the success Envelope with output `O` (for an `O` that needs no escaping). -/
def successEnvelope (O : GoString) : GoString :=
  bytes "\x7b\"ok\":true,\"response\":\x7b\"Output\":\"" ++ O ++
    bytes "\",\"Error\":\"\",\"Messages\":[],\"Spawns\":[],\"Assignments\":[],\"GasUsed\":0\x7d\x7d"

/-- The decoded success Envelope with output `O`. -/
def successValue (O : GoString) : JSONValue :=
  .object [(bytes "ok", .bool true),
    (bytes "response", .object [(bytes "Output", .string O), (bytes "Error", .string []),
      (bytes "Messages", .array []), (bytes "Spawns", .array []),
      (bytes "Assignments", .array []), (bytes "GasUsed", .number (bytes "0"))])]

/-- The text of the failure Envelope for an invalid message. -/
def invalidMessageEnvelope : GoString :=
  bytes "\x7b\"ok\":false,\"response\":\x7b\"Error\":\"Invalid message JSON\"\x7d\x7d"

/-- The decoded failure Envelope for an invalid message. -/
def invalidMessageValue : JSONValue :=
  .object [(bytes "ok", .bool false),
    (bytes "response", .object [(bytes "Error", .string (bytes "Invalid message JSON"))])]

/-- The value of a matching Tag, computed. -/
def actionValue : JSONValue → Option GoString
  | .object tagMap =>
    match mapIndex tagMap (bytes "name"), mapIndex tagMap (bytes "value") with
    | some (.string name), some (.string value) =>
      if name = bytes "Action" then some value else none
    | _, _ => none
  | _ => none

/-- Whether a call is a call of `handle`. -/
def Simple.Call.isHandle : Simple.Call → Bool
  | .handle _ _ _ _ _ _ => true
  | _ => false

/-- Rounding `n` up to a multiple of 8. -/
def roundUp8 (n : Nat) : Nat := (n + 7) / 8 * 8

/-- A Tag entry the resolver skips, in the words of the specification: an entry that is not an
object, or an object with no `name`, with no `value`, with a `name` that is not a string,
with a `value` that is not a string, or with a `name` other than `"Action"`. -/
def IsSkippedTag (t : JSONValue) : Prop :=
  (∀ tagMap, t ≠ .object tagMap) ∨
  ∃ tagMap, t = .object tagMap ∧
    (mapIndex tagMap (bytes "name") = none ∨
     mapIndex tagMap (bytes "value") = none ∨
     (∀ name, mapIndex tagMap (bytes "name") ≠ some (.string name)) ∨
     (∀ value, mapIndex tagMap (bytes "value") ≠ some (.string value)) ∨
     (∃ name, mapIndex tagMap (bytes "name") = some (.string name) ∧ name ≠ bytes "Action"))

/-- The field names of a decoded object, in the order of the text. -/
def objectKeys : JSONValue → Option (List GoString)
  | .object members => some (members.map Prod.fst)
  | _ => none

/-- The names of the top-level fields of an Envelope text. -/
def topLevelFields (text : GoString) : Option (List GoString) :=
  (parseJSON text).bind objectKeys

/-- The names of the fields of the `response` object of an Envelope text. -/
def responseFields (text : GoString) : Option (List GoString) :=
  match parseJSON text with
  | some (.object members) => (mapIndex members (bytes "response")).bind objectKeys
  | _ => none

/-- Whether a call is a call of `free` or of `stackRestore`. -/
def Simple.Call.isFreeOrRestore : Simple.Call → Bool
  | .free _ => true
  | .stackRestore _ => true
  | _ => false

/-- The outcome of the exported call `c` made after the sequence of calls `cs`. -/
def Simple.callAfter (s : State) (cs : List Simple.Call) (c : Simple.Call) :
    Except Panic (Option Nat × State) :=
  match Simple.run s cs with
  | .error p => .error p
  | .ok s' => Simple.step s' c

/-- Rounding `n` up to a multiple of 16. -/
def roundUp16 (n : Nat) : Nat := (n + 15) / 16 * 16

/-- The stack allocator in the words of the specification: the heap allocator with alignment
16.  Size 0 returns 0 without advancing the cursor; a positive size returns the current heap
cursor and advances it by the size rounded up to a multiple of 16. -/
def specStackAlloc (s : State) (size : Nat) : Nat × State :=
  if size = 0 then (0, s)
  else (s.heapPtr, { s with heapPtr := u32 (s.heapPtr + roundUp16 size) })

/-! ## Properties of the message handler -/

theorem isActionTag_iff (t : JSONValue) (v : GoString) :
    IsActionTag t v ↔ actionValue t = some v := by
  constructor
  · rintro ⟨tagMap, rfl, hn, hv⟩
    simp [actionValue, hn, hv]
  · intro h
    cases t with
    | object tagMap =>
      simp only [actionValue] at h
      split at h
      · rename_i name value hn hv
        split at h
        · rename_i hname
          subst hname
          simp only [Option.some.injEq] at h
          subst h
          exact ⟨tagMap, rfl, hn, hv⟩
        · cases h
      · cases h
    | _ => simp [actionValue] at h

theorem scanTags_cons (a : GoString) (t : JSONValue) (rest : List JSONValue) :
    scanTags a (t :: rest) = (actionValue t).getD (scanTags a rest) := by
  cases t with
  | object tagMap =>
    simp only [scanTags, actionValue]
    split
    · rename_i name hn
      split
      · rename_i hname
        split
        · rename_i value hv
          simp [hn, hv, hname]
        · rename_i hv
          cases hval : mapIndex tagMap (bytes "value") with
          | none => simp [hn]
          | some w =>
            cases w with
            | string value => exact absurd hval (hv value)
            | _ => simp [hn]
      · rename_i hname
        cases hval : mapIndex tagMap (bytes "value") with
        | none => simp [hn]
        | some w =>
          cases w <;> simp [hn, hname]
    · rename_i hn
      cases hnm : mapIndex tagMap (bytes "name") with
      | none => simp
      | some w =>
        cases w with
        | string name => exact absurd hnm (hn name)
        | _ => simp
  | _ => simp [scanTags, actionValue]

theorem scanTags_eq (a : GoString) (tags : List JSONValue) :
    scanTags a tags = (tags.findSome? actionValue).getD a := by
  induction tags with
  | nil => simp [scanTags]
  | cons t rest ih =>
    rw [scanTags_cons, ih]
    cases h : actionValue t <;> simp [List.findSome?, h]

theorem firstActionTag_iff (tags : List JSONValue) (v : GoString) :
    FirstActionTag tags v ↔ tags.findSome? actionValue = some v := by
  induction tags with
  | nil =>
    constructor
    · rintro ⟨pre, t, suf, h, _⟩
      simp at h
    · intro h
      simp at h
  | cons t rest ih =>
    constructor
    · rintro ⟨pre, u, suf, h, hpre, hu⟩
      cases pre with
      | nil =>
        simp only [List.nil_append, List.cons.injEq] at h
        obtain ⟨rfl, rfl⟩ := h
        simp [List.findSome?, (isActionTag_iff t v).1 hu]
      | cons p pre' =>
        simp only [List.cons_append, List.cons.injEq] at h
        obtain ⟨rfl, rfl⟩ := h
        have hp : actionValue t = none := by
          cases hv : actionValue t with
          | none => rfl
          | some w =>
            exact absurd ((isActionTag_iff t w).2 hv) (hpre t (List.mem_cons_self _ _) w)
        have hrest : FirstActionTag (pre' ++ u :: suf) v :=
          ⟨pre', u, suf, rfl, fun q hq w => hpre q (List.mem_cons_of_mem _ hq) w, hu⟩
        simp [List.findSome?, hp, ih.1 hrest]
    · intro h
      cases hv : actionValue t with
      | some w =>
        simp only [List.findSome?, hv, Option.some.injEq] at h
        subst h
        exact ⟨[], t, rest, rfl, by simp, (isActionTag_iff t w).2 hv⟩
      | none =>
        simp only [List.findSome?, hv] at h
        obtain ⟨pre, u, suf, hr, hpre, hu⟩ := ih.2 h
        refine ⟨t :: pre, u, suf, by simp [hr], ?_, hu⟩
        intro q hq w hw
        rcases List.mem_cons.1 hq with rfl | hq'
        · rw [isActionTag_iff, hv] at hw
          cases hw
        · exact hpre q hq' w hw

theorem scanTags_of_first (a : GoString) (tags : List JSONValue) (v : GoString)
    (h : FirstActionTag tags v) : scanTags a tags = v := by
  rw [scanTags_eq, (firstActionTag_iff tags v).1 h]
  rfl

theorem scanTags_default_or_first (a : GoString) (tags : List JSONValue) :
    scanTags a tags = a ∨ FirstActionTag tags (scanTags a tags) := by
  rw [scanTags_eq]
  cases h : tags.findSome? actionValue with
  | none => left; rfl
  | some v => right; exact (firstActionTag_iff tags v).2 h

theorem handleAO_eq_handleAOWith (msgJson envJson : GoString) :
    handleAO msgJson envJson = handleAOWith extractAction msgJson envJson := rfl

theorem outputOf_cases (action : GoString) :
    (action = bytes "Hello" ∧ outputOf action = bytes "Hello, world!") ∨
    (action ≠ bytes "Hello" ∧ outputOf action = bytes "Unknown action") := by
  unfold outputOf
  by_cases h : action = bytes "Hello"
  · left; exact ⟨h, by simp [h]⟩
  · right; exact ⟨h, by simp [h]⟩

theorem handleAOWith_of_ok (extract : Option JSONObject → GoString)
    (msgJson envJson : GoString) (msg : Option JSONObject)
    (h : jsonUnmarshal msgJson = .ok msg) :
    handleAOWith extract msgJson envJson = successEnvelope (outputOf (extract msg)) := by
  unfold handleAOWith
  rw [h]
  rcases outputOf_cases (extract msg) with ⟨_, ho⟩ | ⟨_, ho⟩ <;> (simp only [ho]; rfl)

theorem handleAO_of_ok (msgJson envJson : GoString) (msg : Option JSONObject)
    (h : jsonUnmarshal msgJson = .ok msg) :
    handleAO msgJson envJson = successEnvelope (outputOf (extractAction msg)) :=
  handleAOWith_of_ok extractAction msgJson envJson msg h

theorem handleAOWith_of_error (extract : Option JSONObject → GoString)
    (msgJson envJson : GoString) (err : UnmarshalError)
    (h : jsonUnmarshal msgJson = .error err) :
    handleAOWith extract msgJson envJson = invalidMessageEnvelope := by
  unfold handleAOWith
  rw [h]
  rfl

theorem successEnvelope_hello_ne_unknown :
    successEnvelope (bytes "Hello, world!") ≠ successEnvelope (bytes "Unknown action") := by
  decide

theorem extractAction_tags (m : JSONObject) (tags : List JSONValue)
    (h : mapIndex m (bytes "Tags") = some (.array tags)) :
    extractAction (some m) = scanTags (bytes "Default") tags := by
  simp [extractAction, h]

theorem extractAction_default_or_first (m : JSONObject) :
    extractAction (some m) = bytes "Default" ∨
    ∃ tags, mapIndex m (bytes "Tags") = some (.array tags) ∧
      FirstActionTag tags (extractAction (some m)) := by
  cases h : mapIndex m (bytes "Tags") with
  | none => left; simp [extractAction, h]
  | some w =>
    cases w with
    | array tags =>
      rw [extractAction_tags m tags h]
      rcases scanTags_default_or_first (bytes "Default") tags with h1 | h1
      · left; exact h1
      · right; exact ⟨tags, rfl, h1⟩
    | _ => left; simp [extractAction, h]

theorem firstActionTag_unique (tags : List JSONValue) (v w : GoString)
    (hv : FirstActionTag tags v) (hw : FirstActionTag tags w) : v = w := by
  rw [firstActionTag_iff] at hv hw
  rw [hv] at hw
  exact Option.some.inj hw

/-- C1: for a message that decodes as a JSON object, the result of `handleAO` is the success
Envelope with Output "Hello, world!" exactly when `Tags` is a sequence whose first matching Tag
has value "Hello"; in every other case it is the success Envelope with Output
"Unknown action". -/
theorem handleAO_hello_iff (msgJson envJson : GoString) (m : JSONObject)
    (h : jsonUnmarshal msgJson = .ok (some m)) :
    (handleAO msgJson envJson = successEnvelope (bytes "Hello, world!") ↔
      ∃ tags, mapIndex m (bytes "Tags") = some (.array tags) ∧
        FirstActionTag tags (bytes "Hello")) ∧
    ((¬ ∃ tags, mapIndex m (bytes "Tags") = some (.array tags) ∧
        FirstActionTag tags (bytes "Hello")) →
      handleAO msgJson envJson = successEnvelope (bytes "Unknown action")) := by
  have key : (extractAction (some m) = bytes "Hello") ↔
      ∃ tags, mapIndex m (bytes "Tags") = some (.array tags) ∧
        FirstActionTag tags (bytes "Hello") := by
    constructor
    · intro ha
      rcases extractAction_default_or_first m with hd | ⟨tags, ht, hf⟩
      · rw [hd] at ha
        exact absurd ha (by decide)
      · exact ⟨tags, ht, ha ▸ hf⟩
    · rintro ⟨tags, ht, hf⟩
      rw [extractAction_tags m tags ht]
      exact scanTags_of_first _ tags _ hf
  rw [handleAO_of_ok msgJson envJson (some m) h]
  rcases outputOf_cases (extractAction (some m)) with ⟨ha, ho⟩ | ⟨ha, ho⟩
  · rw [ho]
    exact ⟨⟨fun _ => key.1 ha, fun _ => rfl⟩, fun hn => absurd (key.1 ha) hn⟩
  · rw [ho]
    refine ⟨⟨fun he => absurd he.symm successEnvelope_hello_ne_unknown, ?_⟩, fun _ => rfl⟩
    intro hex
    exact absurd (key.2 hex) ha

/-- Witness of C1: the message with the single Tag `Action = Hello`. -/
theorem handleAO_hello_iff_witness :
    jsonUnmarshal (bytes "\x7b\"Tags\":[\x7b\"name\":\"Action\",\"value\":\"Hello\"\x7d]\x7d") =
      .ok (some [(bytes "Tags", .array [.object [(bytes "name", .string (bytes "Action")),
        (bytes "value", .string (bytes "Hello"))]])]) ∧
    handleAO (bytes "\x7b\"Tags\":[\x7b\"name\":\"Action\",\"value\":\"Hello\"\x7d]\x7d") [] =
      successEnvelope (bytes "Hello, world!") :=
  ⟨rfl, (handleAO_hello_iff
    (bytes "\x7b\"Tags\":[\x7b\"name\":\"Action\",\"value\":\"Hello\"\x7d]\x7d") []
    [(bytes "Tags", .array [.object [(bytes "name", .string (bytes "Action")),
      (bytes "value", .string (bytes "Hello"))]])] rfl).1.2
    ⟨[.object [(bytes "name", .string (bytes "Action")),
        (bytes "value", .string (bytes "Hello"))]], rfl,
      [], .object [(bytes "name", .string (bytes "Action")),
        (bytes "value", .string (bytes "Hello"))], [], rfl, by simp,
      [(bytes "name", .string (bytes "Action")), (bytes "value", .string (bytes "Hello"))],
      rfl, rfl, rfl⟩⟩

/-- C2: first match wins.  When `Tags` is `pre ++ [t] ++ suf`, `t` is a matching Tag with value
`v` and no element of `pre` is a matching Tag, the resolved action is `v` whatever `suf`
holds, and the Output is the one dispatched for `v`; in particular the Tags
`Action = Hello`, `Action = Bye` yield "Hello, world!". -/
theorem first_match_wins (msgJson envJson : GoString) (m : JSONObject)
    (pre suf : List JSONValue) (t : JSONValue) (v : GoString)
    (h : jsonUnmarshal msgJson = .ok (some m))
    (htags : mapIndex m (bytes "Tags") = some (.array (pre ++ t :: suf)))
    (hpre : ∀ p ∈ pre, ∀ w, ¬ IsActionTag p w) (ht : IsActionTag t v) :
    scanTags (bytes "Default") (pre ++ t :: suf) = v ∧
    extractAction (some m) = v ∧
    handleAO msgJson envJson = successEnvelope (outputOf v) ∧
    handleAO (bytes ("\x7b\"Tags\":[\x7b\"name\":\"Action\",\"value\":\"Hello\"\x7d," ++
        "\x7b\"name\":\"Action\",\"value\":\"Bye\"\x7d]\x7d")) envJson =
      successEnvelope (bytes "Hello, world!") := by
  have hs : scanTags (bytes "Default") (pre ++ t :: suf) = v :=
    scanTags_of_first _ _ _ ⟨pre, t, suf, rfl, hpre, ht⟩
  have he : extractAction (some m) = v := by
    rw [extractAction_tags m _ htags, hs]
  refine ⟨hs, he, ?_, rfl⟩
  rw [handleAO_of_ok msgJson envJson (some m) h, he]

/-- Witness of C2: one non-matching Tag, then `Action = Hello`, then `Action = Bye`. -/
theorem first_match_wins_witness :
    handleAO (bytes ("\x7b\"Tags\":[\x7b\"name\":\"Other\",\"value\":\"Bye\"\x7d," ++
        "\x7b\"name\":\"Action\",\"value\":\"Hello\"\x7d," ++
        "\x7b\"name\":\"Action\",\"value\":\"Bye\"\x7d]\x7d")) [] =
      successEnvelope (outputOf (bytes "Hello")) :=
  (first_match_wins
    (bytes ("\x7b\"Tags\":[\x7b\"name\":\"Other\",\"value\":\"Bye\"\x7d," ++
        "\x7b\"name\":\"Action\",\"value\":\"Hello\"\x7d," ++
        "\x7b\"name\":\"Action\",\"value\":\"Bye\"\x7d]\x7d")) []
    [(bytes "Tags", .array
      [.object [(bytes "name", .string (bytes "Other")), (bytes "value", .string (bytes "Bye"))],
       .object [(bytes "name", .string (bytes "Action")),
        (bytes "value", .string (bytes "Hello"))],
       .object [(bytes "name", .string (bytes "Action")),
        (bytes "value", .string (bytes "Bye"))]])]
    [.object [(bytes "name", .string (bytes "Other")), (bytes "value", .string (bytes "Bye"))]]
    [.object [(bytes "name", .string (bytes "Action")), (bytes "value", .string (bytes "Bye"))]]
    (.object [(bytes "name", .string (bytes "Action")), (bytes "value", .string (bytes "Hello"))])
    (bytes "Hello") rfl rfl
    (by
      intro p hp w hw
      rw [List.mem_singleton] at hp
      subst hp
      rw [isActionTag_iff] at hw
      have hn : actionValue (.object [(bytes "name", .string (bytes "Other")),
          (bytes "value", .string (bytes "Bye"))]) = none := rfl
      rw [hn] at hw
      cases hw)
    ⟨[(bytes "name", .string (bytes "Action")), (bytes "value", .string (bytes "Hello"))],
      rfl, rfl, rfl⟩).2.2.1

/-- C3: for a message that decodes as a JSON object with no `Tags` field or with an empty `Tags`
sequence, the action is "Default" and the result is the success Envelope with Output
"Unknown action". -/
theorem handleAO_no_tags (msgJson envJson : GoString) (m : JSONObject)
    (h : jsonUnmarshal msgJson = .ok (some m))
    (htags : mapIndex m (bytes "Tags") = none ∨
      mapIndex m (bytes "Tags") = some (.array [])) :
    extractAction (some m) = bytes "Default" ∧
    handleAO msgJson envJson = successEnvelope (bytes "Unknown action") := by
  have he : extractAction (some m) = bytes "Default" := by
    rcases htags with h0 | h0 <;> simp [extractAction, h0, scanTags]
  refine ⟨he, ?_⟩
  rw [handleAO_of_ok msgJson envJson (some m) h, he]
  rfl

/-- Witness of C3: a message with an empty `Tags` sequence. -/
theorem handleAO_no_tags_witness :
    extractAction (some [(bytes "Tags", .array [])]) = bytes "Default" ∧
    handleAO (bytes "\x7b\"Tags\":[]\x7d") [] = successEnvelope (bytes "Unknown action") :=
  handleAO_no_tags (bytes "\x7b\"Tags\":[]\x7d") [] [(bytes "Tags", .array [])] rfl
    (Or.inr rfl)

theorem parseJSON_successEnvelope (action : GoString) :
    parseJSON (successEnvelope (outputOf action)) = some (successValue (outputOf action)) := by
  rcases outputOf_cases action with ⟨_, ho⟩ | ⟨_, ho⟩ <;> (rw [ho]; rfl)

/-- C4: for a message that decodes successfully, `handleAO` returns exactly the success
Envelope text with the dispatched output `O`; decoding that text gives `ok = true`,
`Error = ""` and `Messages`, `Spawns`, `Assignments` each an empty sequence; for the message
with the single Tag `Action = Hello` the text is the one with `O = "Hello, world!"`. -/
theorem handleAO_success_envelope (msgJson envJson : GoString) (msg : Option JSONObject)
    (h : jsonUnmarshal msgJson = .ok msg) :
    ∃ O, O = outputOf (extractAction msg) ∧
      handleAO msgJson envJson =
        bytes "\x7b\"ok\":true,\"response\":\x7b\"Output\":\"" ++ O ++ bytes
          "\",\"Error\":\"\",\"Messages\":[],\"Spawns\":[],\"Assignments\":[],\"GasUsed\":0\x7d\x7d" ∧
      parseJSON (handleAO msgJson envJson) =
        some (.object [(bytes "ok", .bool true),
          (bytes "response", .object [(bytes "Output", .string O),
            (bytes "Error", .string []), (bytes "Messages", .array []),
            (bytes "Spawns", .array []), (bytes "Assignments", .array []),
            (bytes "GasUsed", .number (bytes "0"))])]) ∧
      handleAO (bytes "\x7b\"Tags\":[\x7b\"name\":\"Action\",\"value\":\"Hello\"\x7d]\x7d")
          envJson =
        bytes ("\x7b\"ok\":true,\"response\":\x7b\"Output\":\"Hello, world!\",\"Error\":\"\"," ++
          "\"Messages\":[],\"Spawns\":[],\"Assignments\":[],\"GasUsed\":0\x7d\x7d") := by
  refine ⟨outputOf (extractAction msg), rfl, ?_, ?_, rfl⟩
  · exact handleAO_of_ok msgJson envJson msg h
  · rw [handleAO_of_ok msgJson envJson msg h]
    exact parseJSON_successEnvelope _

/-- Witness of C4: the JSON text `null`, which leaves the message map nil. -/
theorem handleAO_success_envelope_witness :
    ∃ O, O = outputOf (extractAction none) ∧
      handleAO (bytes "null") [] =
        bytes "\x7b\"ok\":true,\"response\":\x7b\"Output\":\"" ++ O ++ bytes
          "\",\"Error\":\"\",\"Messages\":[],\"Spawns\":[],\"Assignments\":[],\"GasUsed\":0\x7d\x7d" :=
  let ⟨O, hO, ht, _⟩ := handleAO_success_envelope (bytes "null") [] none rfl
  ⟨O, hO, ht⟩

theorem jsonUnmarshal_of_invalid (data : GoString) (h : checkValid data = false) :
    jsonUnmarshal data = .error .invalidJSON := by
  unfold checkValid parseJSON at h
  unfold jsonUnmarshal
  cases ht : tokenize data with
  | none => rfl
  | some toks =>
    rw [ht] at h
    simp only [Option.bind] at h
    cases hp : parseRun ⟨[], .value, none⟩ toks with
    | none => simp only [hp]
    | some v => simp [hp] at h

/-- C5: for a message that is not valid JSON, `handleAO` returns the failure Envelope whose
decoding has `ok = false` and the single-field response `Error = "Invalid message JSON"`, and
the result does not depend on the tag resolver (the resolver is not reached).  The string
`handle` reads when the message pointer or length is 0 is empty, the empty string is not valid
JSON, and `handle` then stores this failure Envelope. -/
theorem handleAO_invalid_message (msgJson envJson : GoString)
    (h : checkValid msgJson = false) :
    handleAO msgJson envJson =
      bytes "\x7b\"ok\":false,\"response\":\x7b\"Error\":\"Invalid message JSON\"\x7d\x7d" ∧
    parseJSON (handleAO msgJson envJson) =
      some (.object [(bytes "ok", .bool false),
        (bytes "response", .object [(bytes "Error", .string (bytes "Invalid message JSON"))])]) ∧
    (∀ extract, handleAOWith extract msgJson envJson = handleAO msgJson envJson) ∧
    checkValid [] = false ∧
    (∀ mem ptr len, ptr = 0 ∨ len = 0 → readStringFromMemory mem ptr len = .ok []) ∧
    (∀ mem bufAddr s ptr len envPtr envLen env, ptr = 0 ∨ len = 0 →
      readStringFromMemory mem envPtr envLen = .ok env →
      handle mem bufAddr s ptr len envPtr envLen =
        .ok (u32 bufAddr, ⟨bytes
          "\x7b\"ok\":false,\"response\":\x7b\"Error\":\"Invalid message JSON\"\x7d\x7d",
          s.heapPtr⟩)) := by
  have hr : ∀ mem ptr len, ptr = 0 ∨ len = 0 → readStringFromMemory mem ptr len = .ok [] := by
    intro mem ptr len hz
    simp [readStringFromMemory, hz]
  have he : ∀ extract, handleAOWith extract msgJson envJson = invalidMessageEnvelope :=
    fun extract => handleAOWith_of_error extract msgJson envJson _
      (jsonUnmarshal_of_invalid msgJson h)
  have h0 : handleAO msgJson envJson = invalidMessageEnvelope := he extractAction
  refine ⟨h0, ?_, fun extract => (he extract).trans h0.symm, rfl, hr, ?_⟩
  · rw [h0]
    rfl
  · intro mem bufAddr s ptr len envPtr envLen env hz henv
    have hempty : handleAO [] env = invalidMessageEnvelope := rfl
    unfold handle
    rw [hr mem ptr len hz, henv]
    simp only [hempty]
    rfl

/-- Witness of C5: the truncated text `nul`. -/
theorem handleAO_invalid_message_witness :
    checkValid (bytes "nul") = false ∧
    handleAO (bytes "nul") (bytes "\x7b\x7d") =
      bytes "\x7b\"ok\":false,\"response\":\x7b\"Error\":\"Invalid message JSON\"\x7d\x7d" :=
  ⟨rfl, (handleAO_invalid_message (bytes "nul") (bytes "\x7b\x7d") rfl).1⟩

/-! ## Properties of the WASM boundary -/

theorem xor_mod_two_pow (x k : Nat) : x ^^^ (x % 2 ^ k) = 2 ^ k * (x / 2 ^ k) := by
  apply Nat.eq_of_testBit_eq
  intro j
  rw [Nat.testBit_xor, Nat.testBit_mod_two_pow, Nat.testBit_mul_pow_two]
  by_cases hj : j < k
  · have : ¬ j ≥ k := by omega
    simp [hj, this]
  · have hge : j ≥ k := by omega
    have hx : Nat.testBit x j = Nat.testBit (x / 2 ^ k) (j - k) := by
      conv_lhs => rw [← Nat.div_add_mod x (2 ^ k)]
      rw [Nat.testBit_mul_pow_two_add _ (Nat.mod_lt _ (Nat.two_pow_pos k))]
      simp [hj]
    simp [hj, hge, hx]

theorem andNot_two_pow_sub_one (x k : Nat) (hx : x < 4294967296) :
    andNot x (2 ^ k - 1) = 2 ^ k * (x / 2 ^ k) := by
  unfold andNot
  rw [Nat.and_xor_distrib_left, Nat.and_pow_two_sub_one_eq_mod]
  have h32 : x &&& 4294967295 = x % 2 ^ 32 := Nat.and_pow_two_sub_one_eq_mod x 32
  rw [h32, Nat.mod_eq_of_lt (by simpa using hx)]
  exact xor_mod_two_pow x k

theorem u32_lt (n : Nat) : u32 n < 4294967296 := Nat.mod_lt _ (by decide)

theorem andNot_seven (x : Nat) (hx : x < 4294967296) : andNot x 7 = 8 * (x / 8) :=
  andNot_two_pow_sub_one x 3 hx

theorem andNot_fifteen (x : Nat) (hx : x < 4294967296) : andNot x 15 = 16 * (x / 16) :=
  andNot_two_pow_sub_one x 4 hx

theorem handleAO_cases (msgJson envJson : GoString) :
    handleAO msgJson envJson = successEnvelope (bytes "Hello, world!") ∨
    handleAO msgJson envJson = successEnvelope (bytes "Unknown action") ∨
    handleAO msgJson envJson = invalidMessageEnvelope := by
  cases h : jsonUnmarshal msgJson with
  | error err =>
    right; right
    exact handleAOWith_of_error extractAction msgJson envJson err h
  | ok msg =>
    rw [handleAO_of_ok msgJson envJson msg h]
    rcases outputOf_cases (extractAction msg) with ⟨_, ho⟩ | ⟨_, ho⟩ <;> simp [ho]

theorem handleAO_length_lt (msgJson envJson : GoString) :
    (handleAO msgJson envJson).length < 4294967296 := by
  have h1 : (successEnvelope (bytes "Hello, world!")).length = 115 := rfl
  have h2 : (successEnvelope (bytes "Unknown action")).length = 116 := rfl
  have h3 : invalidMessageEnvelope.length = 56 := rfl
  rcases handleAO_cases msgJson envJson with h | h | h <;> rw [h] <;> omega

theorem handleAO_ne_nil (msgJson envJson : GoString) : handleAO msgJson envJson ≠ [] := by
  rcases handleAO_cases msgJson envJson with h | h | h <;> (rw [h]; decide)

theorem handle_of_read (mem : Nat → Nat) (bufAddr : Nat) (s : State)
    (msgJsonPtr msgJsonLen envJsonPtr envJsonLen : Nat) (m e : GoString)
    (hm : readStringFromMemory mem msgJsonPtr msgJsonLen = .ok m)
    (he : readStringFromMemory mem envJsonPtr envJsonLen = .ok e) :
    handle mem bufAddr s msgJsonPtr msgJsonLen envJsonPtr envJsonLen =
      .ok (u32 bufAddr, ⟨handleAO m e, s.heapPtr⟩) := by
  unfold handle
  rw [hm, he]
  simp [handleAO_ne_nil]

namespace Simple

theorem malloc_resultBuffer (s : State) (size : Nat) :
    (malloc s size).2.resultBuffer = s.resultBuffer := by
  unfold malloc
  split <;> rfl

theorem step_resultBuffer (s s' : State) (c : Call) (r : Option Nat)
    (hc : c.isHandle = false) (h : step s c = .ok (r, s')) :
    s'.resultBuffer = s.resultBuffer := by
  cases c with
  | handle mem bufAddr a b c d => simp [Call.isHandle] at hc
  | malloc size =>
    simp only [step, Except.ok.injEq, Prod.mk.injEq] at h
    rw [← h.2]
    exact malloc_resultBuffer s size
  | abort => simp [step, AoGoProcess.abort] at h
  | _ =>
    simp only [step, Except.ok.injEq, Prod.mk.injEq, AoGoProcess.stackRestore, free] at h
    rw [← h.2]

theorem run_resultBuffer (cs : List Call) (hcs : ∀ c ∈ cs, c.isHandle = false)
    (s s' : State) (h : run s cs = .ok s') : s'.resultBuffer = s.resultBuffer := by
  induction cs generalizing s with
  | nil =>
    simp only [run, Except.ok.injEq] at h
    rw [h]
  | cons c cs ih =>
    simp only [run] at h
    cases hs : step s c with
    | error p => simp [hs] at h
    | ok rs =>
      obtain ⟨r, s1⟩ := rs
      simp only [hs] at h
      rw [ih (fun d hd => hcs d (List.mem_cons_of_mem _ hd)) s1 h]
      exact step_resultBuffer s s1 c r (hcs c (List.mem_cons_self _ _)) hs

theorem run_append (cs1 cs2 : List Call) (s s' : State)
    (h : run s (cs1 ++ cs2) = .ok s') : ∃ s1, run s cs1 = .ok s1 ∧ run s1 cs2 = .ok s' := by
  induction cs1 generalizing s with
  | nil => exact ⟨s, rfl, h⟩
  | cons c cs ih =>
    simp only [List.cons_append, run] at h ⊢
    cases hs : step s c with
    | error p => simp [hs] at h
    | ok rs =>
      obtain ⟨r, s1⟩ := rs
      simp only [hs] at h ⊢
      exact ih s1 h

end Simple

/-- C6: after any sequence of exported calls (from any state) whose last `handle` call read
message `m` and environment `e`, `getResultLength` is exactly the byte length of
`handleAO m e`, the text that call stored; what earlier calls stored has no effect. -/
theorem getResultLength_after_handle (s s' : State) (cs1 cs2 : List Simple.Call)
    (mem : Nat → Nat) (bufAddr msgJsonPtr msgJsonLen envJsonPtr envJsonLen : Nat)
    (m e : GoString)
    (hm : readStringFromMemory mem msgJsonPtr msgJsonLen = .ok m)
    (he : readStringFromMemory mem envJsonPtr envJsonLen = .ok e)
    (hlast : ∀ c ∈ cs2, c.isHandle = false)
    (hrun : Simple.run s
      (cs1 ++ .handle mem bufAddr msgJsonPtr msgJsonLen envJsonPtr envJsonLen :: cs2) =
        .ok s') :
    s'.resultBuffer = handleAO m e ∧ getResultLength s' = (handleAO m e).length := by
  obtain ⟨s1, _, h2⟩ := Simple.run_append cs1 _ s s' hrun
  simp only [Simple.run, Simple.step,
    handle_of_read mem bufAddr s1 msgJsonPtr msgJsonLen envJsonPtr envJsonLen m e hm he] at h2
  have hb : s'.resultBuffer = handleAO m e := Simple.run_resultBuffer cs2 hlast _ s' h2
  refine ⟨hb, ?_⟩
  unfold getResultLength u32
  rw [hb]
  exact Nat.mod_eq_of_lt (handleAO_length_lt m e)

/-- Witness of C6: two `handle` calls followed by `malloc` and `getResultLength`; the first
reads the text `nul`, the second (and last) reads the empty string. -/
theorem getResultLength_after_handle_witness :
    Simple.run State.init
      [.handle (fun a => if a = 8 then 110 else if a = 9 then 117 else 108) 1024 8 3 0 0,
       .handle (fun _ => 0) 2048 0 0 0 0, .malloc 5, .getResultLength] =
        .ok ⟨handleAO [] [], 65544⟩ ∧
    getResultLength ⟨handleAO [] [], 65544⟩ = (handleAO [] []).length :=
  ⟨rfl, (getResultLength_after_handle State.init ⟨handleAO [] [], 65544⟩
    [.handle (fun a => if a = 8 then 110 else if a = 9 then 117 else 108) 1024 8 3 0 0]
    [.malloc 5, .getResultLength] (fun _ => 0) 2048 0 0 0 0 [] [] rfl rfl
    (by decide) rfl).2⟩

namespace Simple

theorem malloc_heapPtr_mod (s : State) (size : Nat) (h : s.heapPtr % 8 = 0) :
    (malloc s size).2.heapPtr % 8 = 0 := by
  unfold malloc
  split
  · exact h
  · have ha := andNot_seven (u32 (size + 7)) (u32_lt _)
    simp only [ha]
    unfold u32
    omega

theorem step_heapPtr_mod (s s' : State) (c : Call) (r : Option Nat)
    (h : step s c = .ok (r, s')) (hs : s.heapPtr % 8 = 0) : s'.heapPtr % 8 = 0 := by
  cases c with
  | handle mem bufAddr a b c d =>
    simp only [step, AoGoProcess.handle] at h
    split at h
    · cases h
    · rename_i ptr s1 hh
      simp only [Except.ok.injEq, Prod.mk.injEq] at h
      rw [← h.2]
      split at hh
      · cases hh
      · split at hh
        · cases hh
        · split at hh
          · cases hh
          · simp only [Except.ok.injEq, Prod.mk.injEq] at hh
            rw [← hh.2]
            exact hs
  | malloc size =>
    simp only [step, Except.ok.injEq, Prod.mk.injEq] at h
    rw [← h.2]
    exact malloc_heapPtr_mod s size hs
  | abort => simp [step, AoGoProcess.abort] at h
  | _ =>
    simp only [step, Except.ok.injEq, Prod.mk.injEq, AoGoProcess.stackRestore, free] at h
    rw [← h.2]
    exact hs

theorem reachable_heapPtr_mod (s : State) (hr : Reachable s) : s.heapPtr % 8 = 0 := by
  induction hr with
  | init => rfl
  | step _ hstep ih => exact step_heapPtr_mod _ _ _ _ hstep ih

end Simple

/-- C7: in the simple variant, in every state reachable from the initial state by exported
calls, `malloc n` returns a multiple of 8 for every `n`, and `malloc 0` returns 0 and leaves
the state (the heap cursor with it) unchanged. -/
theorem malloc_aligned (s : State) (hr : Simple.Reachable s) (n : Nat) :
    (Simple.malloc s n).1 % 8 = 0 ∧
    (Simple.malloc s 0).1 = 0 ∧ (Simple.malloc s 0).2 = s ∧
    (Simple.malloc s 0).2.heapPtr = s.heapPtr := by
  refine ⟨?_, rfl, rfl, rfl⟩
  unfold Simple.malloc
  split
  · rfl
  · exact Simple.reachable_heapPtr_mod s hr

/-- Witness of C7: the state after `malloc 5` and a `handle` call. -/
theorem malloc_aligned_witness :
    (Simple.malloc ⟨handleAO [] [], 65544⟩ 3).1 % 8 = 0 ∧
    (Simple.malloc ⟨handleAO [] [], 65544⟩ 0).1 = 0 :=
  have hr : Simple.Reachable ⟨handleAO [] [], 65544⟩ :=
    .step (c := .handle (fun _ => 0) 2048 0 0 0 0) (r := some 2048)
      (.step (c := .malloc 5) (r := some 65536) .init rfl) rfl
  ⟨(malloc_aligned _ hr 3).1, (malloc_aligned _ hr 3).2.1⟩

namespace Simple

theorem malloc_of_pos (s : State) (size : Nat) (hpos : 0 < size)
    (hfit : s.heapPtr + roundUp8 size < 4294967296) :
    malloc s size = (s.heapPtr, ⟨s.resultBuffer, s.heapPtr + roundUp8 size⟩) := by
  unfold roundUp8 at hfit
  have hsz : size + 7 < 4294967296 := by omega
  unfold malloc
  rw [if_neg (by omega)]
  simp only [u32, Nat.mod_eq_of_lt hsz]
  rw [andNot_seven _ hsz]
  have : s.heapPtr + 8 * ((size + 7) / 8) < 4294967296 := by omega
  rw [Nat.mod_eq_of_lt this]
  unfold roundUp8
  rw [Nat.mul_comm]

theorem roundUp8_pos (n : Nat) (h : 0 < n) : 0 < roundUp8 n := by
  unfold roundUp8
  omega

theorem mallocSeq_ge (sizes : List Nat) (s : State) (hpos : ∀ n ∈ sizes, 0 < n)
    (hfit : s.heapPtr + (sizes.map roundUp8).sum < 4294967296) :
    ∀ p ∈ mallocSeq s sizes, s.heapPtr ≤ p := by
  induction sizes generalizing s with
  | nil => simp [mallocSeq]
  | cons n rest ih =>
    simp only [List.map_cons, List.sum_cons] at hfit
    have hn : 0 < n := hpos n (List.mem_cons_self _ _)
    have hm := malloc_of_pos s n hn (by omega)
    intro p hp
    simp only [mallocSeq, hm, List.mem_cons] at hp
    rcases hp with rfl | hp
    · exact Nat.le_refl _
    · have := ih ⟨s.resultBuffer, s.heapPtr + roundUp8 n⟩
        (fun k hk => hpos k (List.mem_cons_of_mem _ hk)) (by simp only []; omega) p hp
      simp only [] at this
      omega

theorem mallocSeq_pairwise (sizes : List Nat) (s : State) (hpos : ∀ n ∈ sizes, 0 < n)
    (hfit : s.heapPtr + (sizes.map roundUp8).sum < 4294967296) :
    (mallocSeq s sizes).Pairwise (· < ·) := by
  induction sizes generalizing s with
  | nil => simp [mallocSeq]
  | cons n rest ih =>
    simp only [List.map_cons, List.sum_cons] at hfit
    have hn : 0 < n := hpos n (List.mem_cons_self _ _)
    have hm := malloc_of_pos s n hn (by omega)
    have hr := roundUp8_pos n hn
    simp only [mallocSeq, hm, List.pairwise_cons]
    constructor
    · intro p hp
      have := mallocSeq_ge rest ⟨s.resultBuffer, s.heapPtr + roundUp8 n⟩
        (fun k hk => hpos k (List.mem_cons_of_mem _ hk)) (by simp only []; omega) p hp
      simp only [] at this
      omega
    · exact ih ⟨s.resultBuffer, s.heapPtr + roundUp8 n⟩
        (fun k hk => hpos k (List.mem_cons_of_mem _ hk)) (by simp only []; omega)

end Simple

/-- C8 fails as stated: the sizes 4294967295 and 1 are positive `uint32` values, and both
`malloc` calls return 65536, because `size + 7` wraps around and the aligned size is 0. -/
theorem malloc_not_monotone :
    (∀ n ∈ [4294967295, 1], 0 < n ∧ n < 4294967296) ∧
    Simple.mallocSeq State.init [4294967295, 1] = [65536, 65536] ∧
    ¬ (Simple.mallocSeq State.init [4294967295, 1]).Pairwise (· < ·) := by
  decide

/-- C8, amended: for any sequence of `malloc` calls with positive sizes from the initial state
such that 65536 plus the sum of the sizes, each rounded up to a multiple of 8, is below `2^32`
(the cursor does not wrap), the returned offsets are strictly increasing. -/
theorem malloc_monotone (sizes : List Nat) (hpos : ∀ n ∈ sizes, 0 < n)
    (hfit : 65536 + (sizes.map roundUp8).sum < 4294967296) :
    (Simple.mallocSeq State.init sizes).Pairwise (· < ·) :=
  Simple.mallocSeq_pairwise sizes State.init hpos hfit

/-- Witness of C8 (amended): the sizes 1, 8 and 13. -/
theorem malloc_monotone_witness :
    Simple.mallocSeq State.init [1, 8, 13] = [65536, 65544, 65552] ∧
    (Simple.mallocSeq State.init [1, 8, 13]).Pairwise (· < ·) :=
  ⟨rfl, malloc_monotone [1, 8, 13] (by decide) (by decide)⟩

/-- C9 fails as stated: in the simple variant `stackAlloc 1` is 65537, not a multiple of 16. -/
theorem simple_stackAlloc_not_aligned :
    Simple.stackAlloc 1 = 65537 ∧ Simple.stackAlloc 1 % 16 ≠ 0 := by
  decide

/-- C9, amended: in the simple variant `stackAlloc n` is `65536 + n` reduced to `uint32`, a
multiple of 16 exactly when `n` is one. -/
theorem simple_stackAlloc_aligned_iff (n : Nat) :
    Simple.stackAlloc n = (65536 + n) % 4294967296 ∧
    (Simple.stackAlloc n % 16 = 0 ↔ n % 16 = 0) := by
  refine ⟨rfl, ?_⟩
  unfold Simple.stackAlloc u32
  omega

namespace Tinygo

theorem stackAlloc_heapPtr_mod (s : State) (size : Nat) (h : s.heapPtr % 16 = 0) :
    (stackAlloc s size).2.heapPtr % 16 = 0 := by
  unfold stackAlloc
  have ha := andNot_fifteen (u32 (size + 15)) (u32_lt _)
  simp only [ha]
  unfold u32
  omega

theorem tinygo_step_heapPtr_mod (s s' : State) (c : Call) (r : Option Nat)
    (h : step s c = .ok (r, s')) (hs : s.heapPtr % 16 = 0) : s'.heapPtr % 16 = 0 := by
  cases c with
  | handle mem bufAddr a b c d =>
    simp only [step, AoGoProcess.handle] at h
    split at h
    · cases h
    · rename_i ptr s1 hh
      simp only [Except.ok.injEq, Prod.mk.injEq] at h
      rw [← h.2]
      split at hh
      · cases hh
      · split at hh
        · cases hh
        · split at hh
          · cases hh
          · simp only [Except.ok.injEq, Prod.mk.injEq] at hh
            rw [← hh.2]
            exact hs
  | stackAlloc size =>
    simp only [step, Except.ok.injEq, Prod.mk.injEq] at h
    rw [← h.2]
    exact stackAlloc_heapPtr_mod s size hs
  | abort => simp [step, AoGoProcess.abort] at h
  | _ =>
    simp only [step, Except.ok.injEq, Prod.mk.injEq, AoGoProcess.stackRestore] at h
    rw [← h.2]
    exact hs

theorem tinygo_reachable_heapPtr_mod (s : State) (hr : Reachable s) : s.heapPtr % 16 = 0 := by
  induction hr with
  | init => rfl
  | step _ hstep ih => exact tinygo_step_heapPtr_mod _ _ _ _ hstep ih

end Tinygo

/-- C10: in the build-tagged variant, in every state reachable from the initial state by
exported calls, the heap cursor is a multiple of 16, `stackAlloc n` returns a multiple of 16
for every `n`, and the cursor after the call is again a multiple of 16. -/
theorem tinygo_stackAlloc_aligned (s : State) (hr : Tinygo.Reachable s) (n : Nat) :
    (Tinygo.stackAlloc s n).1 % 16 = 0 ∧ s.heapPtr % 16 = 0 ∧
    (Tinygo.stackAlloc s n).2.heapPtr % 16 = 0 :=
  ⟨Tinygo.tinygo_reachable_heapPtr_mod s hr, Tinygo.tinygo_reachable_heapPtr_mod s hr,
    Tinygo.stackAlloc_heapPtr_mod s n (Tinygo.tinygo_reachable_heapPtr_mod s hr)⟩

/-- Witness of C10: the state after `stackAlloc 5` and a `handle` call. -/
theorem tinygo_stackAlloc_aligned_witness :
    (Tinygo.stackAlloc ⟨handleAO [] [], 65552⟩ 3).1 % 16 = 0 ∧
    (Tinygo.stackAlloc ⟨handleAO [] [], 65552⟩ 3).2.heapPtr % 16 = 0 :=
  have hr : Tinygo.Reachable ⟨handleAO [] [], 65552⟩ :=
    .step (c := .handle (fun _ => 0) 2048 0 0 0 0) (r := some 2048)
      (.step (c := .stackAlloc 5) (r := some 65536) .init rfl) rfl
  ⟨(tinygo_stackAlloc_aligned _ hr 3).1, (tinygo_stackAlloc_aligned _ hr 3).2.2⟩

/-! ## Skipped tags, the environment record and field names -/

theorem actionValue_of_skipped (t : JSONValue) (h : IsSkippedTag t) : actionValue t = none := by
  cases hv : actionValue t with
  | none => rfl
  | some v =>
    obtain ⟨tagMap, rfl, hn, hval⟩ := (isActionTag_iff t v).2 hv
    rcases h with h | ⟨tm, htm, h⟩
    · exact absurd rfl (h tagMap)
    · cases htm
      rcases h with h | h | h | h | ⟨name, h, hne⟩
      · rw [hn] at h; cases h
      · rw [hval] at h; cases h
      · exact absurd hn (h _)
      · exact absurd hval (h _)
      · rw [hn] at h
        simp only [Option.some.injEq, JSONValue.string.injEq] at h
        exact absurd h.symm hne

theorem scanTags_skip (a : GoString) (pre suf : List JSONValue) (t : JSONValue)
    (h : actionValue t = none) : scanTags a (pre ++ t :: suf) = scanTags a (pre ++ suf) := by
  induction pre with
  | nil => simp [scanTags_cons, h]
  | cons p pre ih => simp only [List.cons_append, scanTags_cons, ih]

theorem successEnvelope_ne_invalid (action : GoString) :
    successEnvelope (outputOf action) ≠ invalidMessageEnvelope := by
  rcases outputOf_cases action with ⟨_, ho⟩ | ⟨_, ho⟩ <;> (rw [ho]; decide)

/-- C11: a Tag entry that is malformed or whose name is not "Action" is skipped: the message
with such an entry inserted anywhere in `Tags` and the message without it resolve to the same
action and give the same result; a `Tags` field that is not a sequence resolves to "Default";
and for a decoded message the result is always a success Envelope, never the failure one. -/
theorem skipped_tags_ignored (msgJson msgJson' envJson : GoString) (m m' : JSONObject)
    (pre suf : List JSONValue) (t : JSONValue)
    (h : jsonUnmarshal msgJson = .ok (some m))
    (h' : jsonUnmarshal msgJson' = .ok (some m'))
    (htags : mapIndex m (bytes "Tags") = some (.array (pre ++ t :: suf)))
    (htags' : mapIndex m' (bytes "Tags") = some (.array (pre ++ suf)))
    (hskip : IsSkippedTag t) :
    extractAction (some m) = extractAction (some m') ∧
    handleAO msgJson envJson = handleAO msgJson' envJson ∧
    (∀ (n : JSONObject) (w : JSONValue), mapIndex n (bytes "Tags") = some w →
      (∀ tags, w ≠ .array tags) → extractAction (some n) = bytes "Default") ∧
    (∀ (j e : GoString) (msg : Option JSONObject), jsonUnmarshal j = .ok msg →
      (handleAO j e = successEnvelope (bytes "Hello, world!") ∨
        handleAO j e = successEnvelope (bytes "Unknown action")) ∧
      handleAO j e ≠ invalidMessageEnvelope) := by
  have he : extractAction (some m) = extractAction (some m') := by
    rw [extractAction_tags m _ htags, extractAction_tags m' _ htags']
    exact scanTags_skip _ pre suf t (actionValue_of_skipped t hskip)
  refine ⟨he, ?_, ?_, ?_⟩
  · rw [handleAO_of_ok msgJson envJson (some m) h, handleAO_of_ok msgJson' envJson (some m') h',
      he]
  · intro n w hw hnot
    cases w with
    | array tags => exact absurd rfl (hnot tags)
    | _ => simp [extractAction, hw]
  · intro j e msg hj
    rw [handleAO_of_ok j e msg hj]
    refine ⟨?_, successEnvelope_ne_invalid _⟩
    rcases outputOf_cases (extractAction msg) with ⟨_, ho⟩ | ⟨_, ho⟩
    · left; rw [ho]
    · right; rw [ho]

/-- Witness of C11: a number inserted in front of the Tag `Action = Hello`. -/
theorem skipped_tags_ignored_witness :
    handleAO (bytes "\x7b\"Tags\":[17,\x7b\"name\":\"Action\",\"value\":\"Hello\"\x7d]\x7d") [] =
      handleAO (bytes "\x7b\"Tags\":[\x7b\"name\":\"Action\",\"value\":\"Hello\"\x7d]\x7d") [] :=
  (skipped_tags_ignored
    (bytes "\x7b\"Tags\":[17,\x7b\"name\":\"Action\",\"value\":\"Hello\"\x7d]\x7d")
    (bytes "\x7b\"Tags\":[\x7b\"name\":\"Action\",\"value\":\"Hello\"\x7d]\x7d") []
    [(bytes "Tags", .array [.number (bytes "17"),
      .object [(bytes "name", .string (bytes "Action")),
        (bytes "value", .string (bytes "Hello"))]])]
    [(bytes "Tags", .array [.object [(bytes "name", .string (bytes "Action")),
        (bytes "value", .string (bytes "Hello"))]])]
    [] [.object [(bytes "name", .string (bytes "Action")),
        (bytes "value", .string (bytes "Hello"))]]
    (.number (bytes "17")) rfl rfl rfl rfl
    (Or.inl (fun _ hn => JSONValue.noConfusion hn))).2.1

/-- C12: the environment string is not consumed: `handleAO` gives the same result for any two
environment strings, and the result is the failure Envelope exactly when decoding the message
fails. -/
theorem handleAO_env_irrelevant (msgJson e1 e2 : GoString) :
    handleAO msgJson e1 = handleAO msgJson e2 ∧
    (handleAO msgJson e1 = invalidMessageEnvelope ↔
      ∃ err, jsonUnmarshal msgJson = .error err) := by
  refine ⟨rfl, ?_⟩
  cases h : jsonUnmarshal msgJson with
  | error err =>
    exact ⟨fun _ => ⟨err, rfl⟩, fun _ => handleAOWith_of_error extractAction msgJson e1 err h⟩
  | ok msg =>
    rw [handleAO_of_ok msgJson e1 msg h]
    constructor
    · intro he
      exact absurd he (successEnvelope_ne_invalid _)
    · rintro ⟨err, herr⟩
      cases herr

/-- C13 fails as stated: with the message `{}` and the environment `nul`, which is not valid
JSON, `handle` stores the success Envelope with Output "Unknown action". -/
theorem handle_ignores_invalid_env :
    checkValid (bytes "nul") = false ∧
    handle (fun a => if a = 8 then 123 else if a = 9 then 125 else if a = 16 then 110
        else if a = 17 then 117 else 108) 1024 State.init 8 2 16 3 =
      .ok (1024, ⟨handleAO (bytes "\x7b\x7d") (bytes "nul"), 65536⟩) ∧
    handleAO (bytes "\x7b\x7d") (bytes "nul") = successEnvelope (bytes "Unknown action") ∧
    parseJSON (handleAO (bytes "\x7b\x7d") (bytes "nul")) =
      some (successValue (bytes "Unknown action")) :=
  ⟨rfl, rfl, rfl, rfl⟩

/-- C13, amended: whenever the message read by `handle` is not valid JSON, `handle` stores the
failure Envelope (`ok = false`, `Error = "Invalid message JSON"`), whatever the environment
string is; the environment string is never parsed. -/
theorem handle_invalid_message (mem : Nat → Nat) (bufAddr : Nat) (s : State)
    (msgJsonPtr msgJsonLen envJsonPtr envJsonLen : Nat) (m e : GoString)
    (hm : readStringFromMemory mem msgJsonPtr msgJsonLen = .ok m)
    (he : readStringFromMemory mem envJsonPtr envJsonLen = .ok e)
    (hinv : checkValid m = false) :
    handle mem bufAddr s msgJsonPtr msgJsonLen envJsonPtr envJsonLen =
      .ok (u32 bufAddr, ⟨invalidMessageEnvelope, s.heapPtr⟩) ∧
    parseJSON invalidMessageEnvelope = some invalidMessageValue ∧
    (∀ e', handleAO m e' = invalidMessageEnvelope) := by
  have hall : ∀ e', handleAO m e' = invalidMessageEnvelope := fun e' =>
    handleAOWith_of_error extractAction m e' _ (jsonUnmarshal_of_invalid m hinv)
  refine ⟨?_, rfl, hall⟩
  rw [handle_of_read mem bufAddr s msgJsonPtr msgJsonLen envJsonPtr envJsonLen m e hm he,
    hall e]

/-- Witness of C13 (amended): the message `nul` with the environment `{}`. -/
theorem handle_invalid_message_witness :
    handle (fun a => if a = 8 then 110 else if a = 9 then 117 else if a = 10 then 108
        else if a = 16 then 123 else 125) 1024 State.init 8 3 16 2 =
      .ok (1024, ⟨invalidMessageEnvelope, 65536⟩) :=
  (handle_invalid_message (fun a => if a = 8 then 110 else if a = 9 then 117
      else if a = 10 then 108 else if a = 16 then 123 else 125) 1024 State.init 8 3 16 2
    (bytes "nul") (bytes "\x7b\x7d") rfl rfl rfl).1

/-- C14 fails as stated: the top-level fields of the serialized Envelope are named `ok` and
`response`, in lower case, not `Ok` and `Response`. -/
theorem envelope_fields_lower_case :
    topLevelFields (handleAO (bytes "\x7b\x7d") []) = some [bytes "ok", bytes "response"] ∧
    topLevelFields (handleAO (bytes "\x7b\x7d") []) ≠ some [bytes "Ok", bytes "Response"] ∧
    topLevelFields (handleAO [] []) ≠ some [bytes "Ok", bytes "Response"] := by
  decide

/-- C14, amended: the serialized Envelope has exactly the two top-level fields `ok` and
`response` (lower case), and the response of a success Envelope has exactly the fields
`Output`, `Error`, `Messages`, `Spawns`, `Assignments` and `GasUsed`; the response of the
failure Envelope has the single field `Error`. -/
theorem envelope_field_names (msgJson envJson : GoString) (msg : Option JSONObject)
    (h : jsonUnmarshal msgJson = .ok msg) :
    topLevelFields (handleAO msgJson envJson) = some [bytes "ok", bytes "response"] ∧
    responseFields (handleAO msgJson envJson) =
      some [bytes "Output", bytes "Error", bytes "Messages", bytes "Spawns",
        bytes "Assignments", bytes "GasUsed"] ∧
    (∀ j e : GoString,
      topLevelFields (handleAO j e) = some [bytes "ok", bytes "response"] ∧
      (responseFields (handleAO j e) =
          some [bytes "Output", bytes "Error", bytes "Messages", bytes "Spawns",
            bytes "Assignments", bytes "GasUsed"] ∨
        responseFields (handleAO j e) = some [bytes "Error"])) := by
  have hs : ∀ action : GoString,
      topLevelFields (successEnvelope (outputOf action)) = some [bytes "ok", bytes "response"] ∧
      responseFields (successEnvelope (outputOf action)) =
        some [bytes "Output", bytes "Error", bytes "Messages", bytes "Spawns",
          bytes "Assignments", bytes "GasUsed"] := by
    intro action
    rcases outputOf_cases action with ⟨_, ho⟩ | ⟨_, ho⟩ <;> (rw [ho]; exact ⟨rfl, rfl⟩)
  refine ⟨?_, ?_, ?_⟩
  · rw [handleAO_of_ok msgJson envJson msg h]
    exact (hs _).1
  · rw [handleAO_of_ok msgJson envJson msg h]
    exact (hs _).2
  · intro j e
    cases hj : jsonUnmarshal j with
    | error err =>
      have hf : handleAO j e = invalidMessageEnvelope :=
        handleAOWith_of_error extractAction j e err hj
      rw [hf]
      exact ⟨rfl, Or.inr rfl⟩
    | ok msg' =>
      rw [handleAO_of_ok j e msg' hj]
      exact ⟨(hs _).1, Or.inl (hs _).2⟩

/-- Witness of C14 (amended): the message `null`. -/
theorem envelope_field_names_witness :
    topLevelFields (handleAO (bytes "null") []) = some [bytes "ok", bytes "response"] ∧
    responseFields (handleAO (bytes "null") []) =
      some [bytes "Output", bytes "Error", bytes "Messages", bytes "Spawns",
        bytes "Assignments", bytes "GasUsed"] :=
  ⟨(envelope_field_names (bytes "null") [] none rfl).1,
    (envelope_field_names (bytes "null") [] none rfl).2.1⟩

/-! ## No-op calls, the Envelope shape and the allocators -/

namespace Simple

theorem run_freeOrRestore (cs : List Call) (s : State)
    (hcs : ∀ c ∈ cs, c.isFreeOrRestore = true) : run s cs = .ok s := by
  induction cs with
  | nil => rfl
  | cons c cs ih =>
    have hc := hcs c (List.mem_cons_self _ _)
    have hrest := ih (fun d hd => hcs d (List.mem_cons_of_mem _ hd))
    cases c <;> simp [Call.isFreeOrRestore] at hc <;>
      simpa [run, step, free, AoGoProcess.stackRestore] using hrest

end Simple

/-- C15: `free` and `stackRestore` are no-ops for every argument: they return the state
unchanged (heap cursor and result buffer alike), a sequence of such calls ends in the state it
started from, and any exported call made after it has the same outcome as without it. -/
theorem free_stackRestore_noop (s : State) (ptr : Nat) (cs : List Simple.Call)
    (hcs : ∀ c ∈ cs, c.isFreeOrRestore = true) :
    Simple.free s ptr = s ∧ stackRestore s ptr = s ∧
    (Simple.free s ptr).heapPtr = s.heapPtr ∧
    (Simple.free s ptr).resultBuffer = s.resultBuffer ∧
    (stackRestore s ptr).heapPtr = s.heapPtr ∧
    (stackRestore s ptr).resultBuffer = s.resultBuffer ∧
    Simple.step s (.free ptr) = .ok (none, s) ∧
    Simple.step s (.stackRestore ptr) = .ok (none, s) ∧
    Tinygo.step s (.stackRestore ptr) = .ok (none, s) ∧
    Simple.run s cs = .ok s ∧
    (∀ c, Simple.callAfter s cs c = Simple.step s c) ∧
    (∀ n, Simple.callAfter s cs (.malloc n) =
      .ok (some (Simple.malloc s n).1, (Simple.malloc s n).2)) ∧
    (∀ n, Simple.callAfter s cs (.stackAlloc n) = .ok (some (Simple.stackAlloc n), s)) ∧
    Simple.callAfter s cs .stackSave = .ok (some Simple.stackSave, s) ∧
    Simple.callAfter s cs .getResultLength = .ok (some (getResultLength s), s) := by
  have hrun := Simple.run_freeOrRestore cs s hcs
  have hafter : ∀ c, Simple.callAfter s cs c = Simple.step s c := by
    intro c
    simp only [Simple.callAfter, hrun]
  refine ⟨rfl, rfl, rfl, rfl, rfl, rfl, rfl, rfl, rfl, hrun, hafter, ?_, ?_, ?_, ?_⟩
  · intro n; rw [hafter]; rfl
  · intro n; rw [hafter]; rfl
  · rw [hafter]; rfl
  · rw [hafter]; rfl

/-- Witness of C15: `free` and `stackRestore` calls after `malloc 5` from the initial state. -/
theorem free_stackRestore_noop_witness :
    Simple.callAfter ⟨[], 65544⟩ [.free 65536, .stackRestore 7, .free 0] (.malloc 3) =
      .ok (some 65544, ⟨[], 65552⟩) :=
  ((free_stackRestore_noop ⟨[], 65544⟩ 0 [.free 65536, .stackRestore 7, .free 0]
    (by decide)).2.2.2.2.2.2.2.2.2.2.2.1 3).trans rfl

theorem failedMarshal_ne :
    createErrorResponse (bytes "Failed to marshal response") ≠
        successEnvelope (bytes "Hello, world!") ∧
    createErrorResponse (bytes "Failed to marshal response") ≠
        successEnvelope (bytes "Unknown action") ∧
    createErrorResponse (bytes "Failed to marshal response") ≠ invalidMessageEnvelope := by
  decide

/-- C16: for every pair of input strings the result of `handleAO` is the Hello success
Envelope, the Unknown-action success Envelope or the "Invalid message JSON" failure Envelope.
Each decodes to an object with exactly the two fields `ok` and `response`, where `ok = true`
comes with a ProcessResponse and `ok = false` with the single-field error record; the
"Failed to marshal response" Envelope is never returned. -/
theorem handleAO_envelope_shape (msgJson envJson : GoString) :
    ((handleAO msgJson envJson = successEnvelope (bytes "Hello, world!") ∧
        parseJSON (handleAO msgJson envJson) = some (successValue (bytes "Hello, world!"))) ∨
      (handleAO msgJson envJson = successEnvelope (bytes "Unknown action") ∧
        parseJSON (handleAO msgJson envJson) = some (successValue (bytes "Unknown action"))) ∨
      (handleAO msgJson envJson = invalidMessageEnvelope ∧
        parseJSON (handleAO msgJson envJson) = some invalidMessageValue)) ∧
    handleAO msgJson envJson ≠ createErrorResponse (bytes "Failed to marshal response") := by
  constructor
  · rcases handleAO_cases msgJson envJson with h | h | h
    · exact Or.inl ⟨h, by rw [h]; rfl⟩
    · exact Or.inr (Or.inl ⟨h, by rw [h]; rfl⟩)
    · exact Or.inr (Or.inr ⟨h, by rw [h]; rfl⟩)
  · intro hf
    rcases handleAO_cases msgJson envJson with h | h | h
    · exact failedMarshal_ne.1 (hf.symm.trans h)
    · exact failedMarshal_ne.2.1 (hf.symm.trans h)
    · exact failedMarshal_ne.2.2 (hf.symm.trans h)

/-- C17 fails as stated: in the build-tagged variant `stackAlloc 0` returns the heap cursor
(65536 in the initial state), not 0; in the simple variant `stackAlloc 0` returns 65536 and
`stackAlloc 5` returns 65541, not the heap cursor 65536. -/
theorem stackAlloc_not_spec :
    (Tinygo.stackAlloc State.init 0).1 = 65536 ∧ (specStackAlloc State.init 0).1 = 0 ∧
    (Tinygo.stackAlloc State.init 0).1 ≠ (specStackAlloc State.init 0).1 ∧
    Simple.stackAlloc 0 = 65536 ∧ Simple.stackAlloc 0 ≠ (specStackAlloc State.init 0).1 ∧
    Simple.stackAlloc 5 = 65541 ∧ Simple.stackAlloc 5 ≠ (specStackAlloc State.init 5).1 := by
  decide

/-- C17, amended: in the build-tagged variant `stackAlloc` returns the current heap cursor for
every size and advances the cursor by the size rounded up to a multiple of 16 (modulo `2^32`):
for a positive size this is the specified allocator with alignment 16, and for size 0 it
returns the cursor and leaves the state unchanged.  In the simple variant `stackAlloc` returns
`65536 + size`. -/
theorem tinygo_stackAlloc_spec (s : State) (size : Nat) (hs : s.heapPtr < 4294967296)
    (hsize : size < 4294967296) :
    Tinygo.stackAlloc s size =
      (s.heapPtr, ⟨s.resultBuffer, (s.heapPtr + roundUp16 size) % 4294967296⟩) ∧
    (0 < size → Tinygo.stackAlloc s size = specStackAlloc s size) ∧
    Tinygo.stackAlloc s 0 = (s.heapPtr, s) ∧
    Simple.stackAlloc size = (65536 + size) % 4294967296 := by
  have key : ∀ n, n < 4294967296 → Tinygo.stackAlloc s n =
      (s.heapPtr, ⟨s.resultBuffer, (s.heapPtr + roundUp16 n) % 4294967296⟩) := by
    intro n hn
    unfold Tinygo.stackAlloc
    have ha := andNot_fifteen (u32 (n + 15)) (u32_lt _)
    simp only [ha]
    unfold u32 roundUp16
    congr 2
    omega
  refine ⟨key size hsize, ?_, ?_, rfl⟩
  · intro hpos
    rw [key size hsize]
    unfold specStackAlloc
    rw [if_neg (by omega)]
    rfl
  · rw [key 0 (by decide)]
    have : (s.heapPtr + roundUp16 0) % 4294967296 = s.heapPtr := by
      unfold roundUp16
      omega
    rw [this]

/-- Witness of C17 (amended): `stackAlloc 5` in the initial state. -/
theorem tinygo_stackAlloc_spec_witness :
    Tinygo.stackAlloc State.init 5 = (65536, ⟨[], 65552⟩) ∧
    Tinygo.stackAlloc State.init 5 = specStackAlloc State.init 5 :=
  ⟨(tinygo_stackAlloc_spec State.init 5 (by decide) (by decide)).1,
    (tinygo_stackAlloc_spec State.init 5 (by decide) (by decide)).2.1 (by decide)⟩

namespace Simple

theorem mallocSeq_length (sizes : List Nat) (s : State) :
    (mallocSeq s sizes).length = sizes.length := by
  induction sizes generalizing s with
  | nil => rfl
  | cons n rest ih => simp [mallocSeq, ih]

theorem le_roundUp8 (n : Nat) : n ≤ roundUp8 n := by
  unfold roundUp8
  omega

theorem mallocSeq_chain (sizes : List Nat) (s : State) (hpos : ∀ n ∈ sizes, 0 < n)
    (hfit : s.heapPtr + (sizes.map roundUp8).sum < 4294967296) :
    List.Chain' (fun a b : Nat × Nat => b.1 = a.1 + roundUp8 a.2 ∧ a.1 + a.2 ≤ b.1)
      ((mallocSeq s sizes).zip sizes) := by
  induction sizes generalizing s with
  | nil => simp [mallocSeq]
  | cons n rest ih =>
    simp only [List.map_cons, List.sum_cons] at hfit
    have hn : 0 < n := hpos n (List.mem_cons_self _ _)
    have hm := malloc_of_pos s n hn (by omega)
    have hrest := ih ⟨s.resultBuffer, s.heapPtr + roundUp8 n⟩
      (fun k hk => hpos k (List.mem_cons_of_mem _ hk)) (by simp only []; omega)
    cases rest with
    | nil => simp [mallocSeq]
    | cons k rest' =>
      simp only [List.map_cons, List.sum_cons] at hfit
      have hk : 0 < k := hpos k (List.mem_cons_of_mem _ (List.mem_cons_self _ _))
      have hm' := malloc_of_pos ⟨s.resultBuffer, s.heapPtr + roundUp8 n⟩ k hk
        (by simp only []; omega)
      simp only [mallocSeq, hm, hm', List.zip_cons_cons, List.chain'_cons] at hrest ⊢
      refine ⟨?_, hrest⟩
      have := le_roundUp8 n
      simp only [true_and]
      omega

theorem mallocSeq_disjoint (sizes : List Nat) (s : State) (hpos : ∀ n ∈ sizes, 0 < n)
    (hfit : s.heapPtr + (sizes.map roundUp8).sum < 4294967296) :
    ((mallocSeq s sizes).zip sizes).Pairwise (fun a b : Nat × Nat => a.1 + a.2 ≤ b.1) := by
  induction sizes generalizing s with
  | nil => simp [mallocSeq]
  | cons n rest ih =>
    simp only [List.map_cons, List.sum_cons] at hfit
    have hn : 0 < n := hpos n (List.mem_cons_self _ _)
    have hm := malloc_of_pos s n hn (by omega)
    simp only [mallocSeq, hm, List.zip_cons_cons, List.pairwise_cons]
    constructor
    · intro b hb
      have hmem : b.1 ∈ mallocSeq ⟨s.resultBuffer, s.heapPtr + roundUp8 n⟩ rest :=
        (List.of_mem_zip (a := b.1) (b := b.2) hb).1
      have := mallocSeq_ge rest ⟨s.resultBuffer, s.heapPtr + roundUp8 n⟩
        (fun k hk => hpos k (List.mem_cons_of_mem _ hk)) (by simp only []; omega) b.1 hmem
      have hle := le_roundUp8 n
      simp only [] at this ⊢
      omega
    · exact ih ⟨s.resultBuffer, s.heapPtr + roundUp8 n⟩
        (fun k hk => hpos k (List.mem_cons_of_mem _ hk)) (by simp only []; omega)

end Simple

/-- C18: for `malloc` calls with positive sizes from the initial state such that 65536 plus the
sum of the sizes rounded up to multiples of 8 is below `2^32`, each call returns an offset,
every next offset is the previous one plus the previous size rounded up (so at least the
previous offset plus the size), the byte ranges `[p, p + size)` are pairwise disjoint, and all
offsets are at or above 65536. -/
theorem malloc_disjoint (sizes : List Nat) (hpos : ∀ n ∈ sizes, 0 < n)
    (hfit : 65536 + (sizes.map roundUp8).sum < 4294967296) :
    (Simple.mallocSeq State.init sizes).length = sizes.length ∧
    List.Chain' (fun a b : Nat × Nat => b.1 = a.1 + roundUp8 a.2 ∧ a.1 + a.2 ≤ b.1)
      ((Simple.mallocSeq State.init sizes).zip sizes) ∧
    ((Simple.mallocSeq State.init sizes).zip sizes).Pairwise
      (fun a b : Nat × Nat => a.1 + a.2 ≤ b.1) ∧
    (∀ p ∈ Simple.mallocSeq State.init sizes, 65536 ≤ p) :=
  ⟨Simple.mallocSeq_length sizes State.init,
    Simple.mallocSeq_chain sizes State.init hpos hfit,
    Simple.mallocSeq_disjoint sizes State.init hpos hfit,
    Simple.mallocSeq_ge sizes State.init hpos hfit⟩

/-- Witness of C18: the sizes 1, 8 and 13. -/
theorem malloc_disjoint_witness :
    (Simple.mallocSeq State.init [1, 8, 13]).zip [1, 8, 13] =
      [(65536, 1), (65544, 8), (65552, 13)] ∧
    ((Simple.mallocSeq State.init [1, 8, 13]).zip [1, 8, 13]).Pairwise
      (fun a b : Nat × Nat => a.1 + a.2 ≤ b.1) :=
  ⟨rfl, (malloc_disjoint [1, 8, 13] (by decide) (by decide)).2.2.1⟩

theorem readStringFromMemory_error (mem : Nat → Nat) (ptr length : Nat) (p : Panic)
    (h : readStringFromMemory mem ptr length = .error p) : p = .sliceBoundsOutOfRange := by
  unfold readStringFromMemory at h
  split at h
  · cases h
  · split at h
    · cases h; rfl
    · cases h

/-- C19: for every pair of input strings the text returned by `handleAO` is non-empty, so for
all arguments `handle` does not panic with an index out of range on `resultBuffer[0]`. -/
theorem handle_index_in_range (mem : Nat → Nat) (bufAddr : Nat) (s : State)
    (msgJsonPtr msgJsonLen envJsonPtr envJsonLen : Nat) (msgJson envJson : GoString) :
    handleAO msgJson envJson ≠ [] ∧ 0 < (handleAO msgJson envJson).length ∧
    handle mem bufAddr s msgJsonPtr msgJsonLen envJsonPtr envJsonLen ≠
      .error .indexOutOfRange := by
  refine ⟨handleAO_ne_nil _ _, List.length_pos.2 (handleAO_ne_nil _ _), ?_⟩
  cases hm : readStringFromMemory mem msgJsonPtr msgJsonLen with
  | error p =>
    have hp := readStringFromMemory_error mem _ _ p hm
    subst hp
    simp [handle, hm]
  | ok m =>
    cases he : readStringFromMemory mem envJsonPtr envJsonLen with
    | error p =>
      have hp := readStringFromMemory_error mem _ _ p he
      subst hp
      simp [handle, hm, he]
    | ok e =>
      rw [handle_of_read mem bufAddr s msgJsonPtr msgJsonLen envJsonPtr envJsonLen m e hm he]
      simp

end AoGoProcess
